import Mathlib

/-!
# Spidey HTTP server: request parsing, path resolution, classification, dispatch

A shallow embedding of `request.c`, `utils.c` and `handler.c`.

* A C string that is only read is a `List Char` holding the bytes before its
  terminator.
* A line buffer that `strtok` writes into is a `List Char` holding the bytes of
  the array, terminators included; a pointer into it is an index and a
  nullable pointer is an `Option Nat`.
* Code that dereferences a null or uninitialised pointer, or overruns a fixed
  array, yields `Exec.undefined`.
* `BUFSIZ` (from `<stdio.h>`) and `WHITESPACE` (from the absent `spidey.h`)
  are parameters.
-/

namespace Spidey

/-! ## C library layer -/

/-- The string terminator byte. -/
def NUL : Char := Char.ofNat 0

/-- The double quote byte, written as `\"` inside the C format strings. -/
def DQUOTE : Char := Char.ofNat 34

/-- Outcome of running a C function: a returned value, undefined behaviour
(null or uninitialised pointer use, array overrun), or a loop bound of the
model being exhausted. -/
inductive Exec (α : Type) where
  | ret : α → Exec α
  | undefined : Exec α
  | fuel : Exec α
deriving DecidableEq, Repr

/-- The `isspace` classification of the "C" locale. -/
def isspace (c : Char) : Bool :=
  c = ' ' || c = '\t' || c = '\n' || c = Char.ofNat 11 || c = Char.ofNat 12 || c = '\r'

/-- Byte at index `p` of a buffer; the model never reads past a terminator,
and a read past the end of the list gives the terminator. -/
def peek (buf : List Char) (p : Nat) : Char := buf.getD p NUL

/-- The C string starting at index `p` of a buffer: the bytes up to the first
terminator. This is also what `strdup` copies. -/
def cstr (buf : List Char) (p : Nat) : List Char :=
  (buf.drop p).takeWhile (fun c => c != NUL)

/-- C `strlen` of the string at index `p`. -/
def strlen (buf : List Char) (p : Nat) : Nat := (cstr buf p).length

/-- Scan for `strchr`: first index at or after `i` holding `c`, stopping at the
terminator. -/
def strchr_scan (c : Char) : List Char → Nat → Option Nat
  | [], _ => none
  | x :: xs, i => if x = c then some i else if x = NUL then none else strchr_scan c xs (i + 1)

/-- C `strchr(buf + p, c)`: pointer to the first `c` in the string, or NULL. -/
def strchr (buf : List Char) (p : Nat) (c : Char) : Option Nat :=
  strchr_scan c (buf.drop p) p

/-- Scan for `strrchr` over a string: index of the last `c`, if any. -/
def strrchr_scan (c : Char) : List Char → Nat → Option Nat → Option Nat
  | [], _, last => last
  | x :: xs, i, last => strrchr_scan c xs (i + 1) (if x = c then some i else last)

/-- C `strrchr(s, c)` on a string: index of the last `c`, or NULL. -/
def strrchr (s : List Char) (c : Char) : Option Nat := strrchr_scan c s 0 none

/-- C `strspn(buf + p, accept)`: length of the leading run of bytes in `accept`. -/
def strspn (buf : List Char) (p : Nat) (accept : List Char) : Nat :=
  ((buf.drop p).takeWhile (fun c => c != NUL && decide (c ∈ accept))).length

/-- C `strcspn(buf + p, reject)`: length of the leading run of bytes not in
`reject`. -/
def strcspn (buf : List Char) (p : Nat) (reject : List Char) : Nat :=
  ((buf.drop p).takeWhile (fun c => c != NUL && !decide (c ∈ reject))).length

/-- C `strtok(s, delim)` with its hidden save pointer made explicit. Returns the
buffer after the call, the token pointer (or NULL) and the new save pointer. -/
def strtok (buf : List Char) (s : Option Nat) (delim : List Char) (save : Nat) :
    List Char × Option Nat × Nat :=
  let s0 := s.getD save
  if peek buf s0 = NUL then (buf, none, s0) else
  let s1 := s0 + strspn buf s0 delim
  if peek buf s1 = NUL then (buf, none, s1) else
  let e := s1 + strcspn buf s1 delim
  if peek buf e = NUL then (buf, some s1, e) else
  (buf.set e NUL, some s1, e + 1)

/-- Advance string pointer past all whitespace characters (`utils.c`). -/
def skip_whitespace (buf : List Char) (s : Nat) : Nat :=
  s + ((buf.drop s).takeWhile (fun c => isspace c && c != NUL)).length

/-- Advance string pointer past all nonwhitespace characters (`utils.c`). -/
def skip_nonwhitespace (buf : List Char) (s : Nat) : Nat :=
  s + ((buf.drop s).takeWhile (fun c => !isspace c && c != NUL)).length

/-- C `strncmp(a, b, n)` on two strings: difference of the first differing
bytes among the first `n`, the terminator counting as byte 0. -/
def strncmp : List Char → List Char → Nat → Int
  | _, _, 0 => 0
  | [], [], _ + 1 => 0
  | [], b :: _, _ + 1 => 0 - (b.toNat : Int)
  | a :: _, [], _ + 1 => (a.toNat : Int)
  | a :: as, b :: bs, n + 1 =>
    if a ≠ b then (a.toNat : Int) - (b.toNat : Int) else strncmp as bs n

/-- C `strcmp(a, b)` on two strings. -/
def strcmp : List Char → List Char → Int
  | [], [] => 0
  | [], b :: _ => 0 - (b.toNat : Int)
  | a :: _, [] => (a.toNat : Int)
  | a :: as, b :: bs => if a ≠ b then (a.toNat : Int) - (b.toNat : Int) else strcmp as bs

/-- Modelled from the spec: the `streq` helper, declared in the absent
`spidey.h`; string equality, `strcmp(a, b) == 0`, as each of its uses under
`src/` compares a string with a literal or a token. -/
def streq (a b : List Char) : Bool := strcmp a b = 0

/-- A stdio stream: the bytes still to be read, the bytes written so far, and
how many more bytes the peer accepts (`none`: no bound). -/
structure FILE where
  input : List Char
  output : List Char
  room : Option Nat
deriving DecidableEq, Repr

/-- Bytes taken by one `fgets`: at most `k`, stopping after a newline. -/
def fgets_take : Nat → List Char → List Char × List Char
  | 0, s => ([], s)
  | _ + 1, [] => ([], [])
  | k + 1, c :: s =>
    if c = '\n' then ([c], s) else ((fgets_take k s).1.cons c, (fgets_take k s).2)

/-- C `fgets(buffer, n, f)`: the buffer it fills (terminator included), or NULL
at end of input. -/
def fgets (n : Nat) (f : FILE) : Option (List Char) × FILE :=
  if n = 0 then (none, f)
  else if n = 1 then (some [NUL], f)
  else
    let t := fgets_take (n - 1) f.input
    if t.1 = [] then (none, f) else (some (t.1 ++ [NUL]), { f with input := t.2 })

/-- C `fwrite(s, 1, |s|, f)`: the number of bytes accepted and the stream. -/
def fwrite (s : List Char) (f : FILE) : Nat × FILE :=
  match f.room with
  | none => (s.length, { f with output := f.output ++ s })
  | some k =>
    ((s.take k).length, { f with output := f.output ++ s.take k, room := some (k - s.length) })

/-- C `fprintf`/`fputs` of already formatted text; the count is discarded. -/
def fputs (s : List Char) (f : FILE) : FILE := (fwrite s f).2

/-- C `fread(buffer, 1, n, f)`: up to `n` bytes, and the stream after them. -/
def fread (n : Nat) (f : FILE) : List Char × FILE :=
  (f.input.take n, { f with input := f.input.drop n })

/-! ## Data model (`spidey.h`) -/

/-- Modelled from the spec: `struct header`, declared in the absent `spidey.h`;
one name/value node of the singly linked header list, with the fields
`request.c` assigns. -/
structure header where
  name : List Char
  value : List Char
deriving DecidableEq, Repr

/-- Modelled from the spec: `struct request`, declared in the absent
`spidey.h`, with the fields the code under `src/` reads and writes (the
descriptor `fd` apart). A `char *` field is `none` while it is NULL; the
linked list `headers` is a list whose first element is the node `r->headers`
points to, and `[]` is the NULL list. -/
structure request where
  file : FILE
  host : List Char
  port : List Char
  method : Option (List Char)
  uri : Option (List Char)
  path : Option (List Char)
  query : Option (List Char)
  headers : List header
deriving DecidableEq, Repr

/-- Modelled from the spec: the `request_type` enumeration, declared in the
absent `spidey.h`, with the four values `utils.c` assigns. -/
inductive request_type where
  | REQUEST_BROWSE
  | REQUEST_FILE
  | REQUEST_CGI
  | REQUEST_BAD
deriving DecidableEq, Repr

/-- Modelled from the spec: the `http_status` enumeration, declared in the
absent `spidey.h`, with the four values `http_status_string` names. -/
inductive http_status where
  | HTTP_STATUS_OK
  | HTTP_STATUS_BAD_REQUEST
  | HTTP_STATUS_NOT_FOUND
  | HTTP_STATUS_INTERNAL_SERVER_ERROR
deriving DecidableEq, Repr

open request_type http_status

/-- The process-wide configuration: the globals of `spidey.c`, with `BUFSIZ`
of `<stdio.h>` and the `WHITESPACE` delimiter set of `spidey.h`. -/
structure config where
  BUFSIZ : Nat
  WHITESPACE : List Char
  Port : List Char
  MimeTypesPath : List Char
  DefaultMimeType : List Char
  RootPath : List Char
deriving DecidableEq, Repr

/-- What `stat` and `access` report about an existing file: its mode word and
what the server process may do with it. -/
structure inode where
  st_mode : Nat
  may_read : Bool
  may_write : Bool
  may_exec : Bool
deriving DecidableEq, Repr

/-- The process environment, as a list of `NAME`, `value` pairs. -/
abbrev environ := List (List Char × List Char)

/-- The operating system as the server sees it. `realpath p` is the content of
the output array after `realpath(p, real)`; `lookup` is the file (if any) a
path names; `readdir` lists the entry names of a directory in directory
order; `content` is what reading a file yields; `run` is the standard output
of a command started by `popen` in a given environment. -/
structure World where
  realpath : List Char → List Char
  lookup : List Char → Option inode
  readdir : List Char → Option (List (List Char))
  content : List Char → Option (List Char)
  run : List Char → environ → Option (List Char)

/-! ## `request.c` -/

/-- Parse HTTP request method and URI (`request.c`, `parse_request_method`). -/
def parse_request_method (BUFSIZ : Nat) (WHITESPACE : List Char) (r : request) :
    Exec (Int × request) :=
  match fgets BUFSIZ r.file with
  | (none, f) => .ret (-1, { r with file := f })
  | (some buffer, f) =>
    let t1 := strtok buffer (some 0) WHITESPACE 0
    let method := t1.2.1
    let t2 := strtok t1.1 none WHITESPACE t1.2.2
    match t2.2.1 with
    | none => .undefined
    | some uri =>
      let query := strchr t2.1 uri '?'
      let t3 := strtok t2.1 (some uri) ['?'] t2.2.2
      match method with
      | none => .undefined
      | some method =>
        let r1 := { r with file := f, method := some (cstr t3.1 method),
                           uri := some (cstr t3.1 uri) }
        match query with
        | some q => .ret (0, { r1 with query := some (cstr t3.1 (q + 1)) })
        | none => .ret (0, { r1 with query := some [] })

/-- The tail of `parse_request_headers` after its loop. -/
def parse_request_headers_end (r : request) : Exec (Int × request) :=
  if r.headers = [] then .ret (-1, r) else .ret (0, r)

/-- The `while` loop of `parse_request_headers`, bounded by `fuel` turns. -/
def parse_request_headers_loop (BUFSIZ : Nat) : Nat → request → Exec (Int × request)
  | 0, _ => .fuel
  | fuel + 1, r =>
    match fgets BUFSIZ r.file with
    | (none, f) => parse_request_headers_end { r with file := f }
    | (some buffer, f) =>
      if strlen buffer 0 > 2 then
        match strchr buffer 0 ':' with
        | none => .undefined
        | some colon =>
          let value := skip_whitespace buffer (colon + 1)
          let t1 := strtok buffer (some value) ['\r', '\n'] 0
          let t2 := strtok t1.1 (some 0) [':'] t1.2.2
          match t2.2.1 with
          | none => .ret (-1, { r with file := f })
          | some name =>
            let curr : header := { name := cstr t2.1 name, value := cstr t2.1 value }
            parse_request_headers_loop BUFSIZ fuel
              { r with file := f, headers := curr :: r.headers }
      else parse_request_headers_end { r with file := f }

/-- Parse HTTP request headers (`request.c`, `parse_request_headers`). Every
turn of the loop that continues consumes input, so the bound is never hit
(`parse_request_headers_terminates`). -/
def parse_request_headers (BUFSIZ : Nat) (r : request) : Exec (Int × request) :=
  parse_request_headers_loop BUFSIZ (r.file.input.length + 1) r

/-- Parse HTTP request (`request.c`, `parse_request`): both phases run, and the
result is 0 only when both returned 0. -/
def parse_request (BUFSIZ : Nat) (WHITESPACE : List Char) (r : request) :
    Exec (Int × request) :=
  match parse_request_method BUFSIZ WHITESPACE r with
  | .ret (method_status, r1) =>
    match parse_request_headers BUFSIZ r1 with
    | .ret (header_status, r2) =>
      if method_status = 0 ∧ header_status = 0 then .ret (0, r2) else .ret (-1, r2)
    | .undefined => .undefined
    | .fuel => .fuel
  | .undefined => .undefined
  | .fuel => .fuel

/-! ## `utils.c` -/

/-- The inner `while` of `determine_mimetype`: walk the remaining tokens of a
line, `true` as soon as one equals the extension. -/
def determine_mimetype_tokens (WHITESPACE ext : List Char) :
    Nat → List Char → Nat → Exec Bool
  | 0, _, _ => .fuel
  | fuel + 1, buffer, save =>
    let t := strtok buffer none WHITESPACE save
    match t.2.1 with
    | none => .ret false
    | some token =>
      if streq ext (cstr t.1 token) then .ret true
      else determine_mimetype_tokens WHITESPACE ext fuel t.1 t.2.2

/-- The outer `while` of `determine_mimetype`: the mimetype of the first line
one of whose extension tokens equals `ext`, if any. The later `strtok` calls
write behind the end of the mimetype token only, so the token is read from
the buffer as the first call left it. -/
def determine_mimetype_scan (BUFSIZ : Nat) (WHITESPACE ext : List Char) :
    Nat → FILE → Exec (Option (List Char))
  | 0, _ => .fuel
  | fuel + 1, fs =>
    match fgets BUFSIZ fs with
    | (none, _) => .ret none
    | (some buffer, fs1) =>
      let t := strtok buffer (some (skip_whitespace buffer 0)) WHITESPACE 0
      match t.2.1 with
      | none => determine_mimetype_scan BUFSIZ WHITESPACE ext fuel fs1
      | some mimetype =>
        match determine_mimetype_tokens WHITESPACE ext (buffer.length + 1) t.1 t.2.2 with
        | .ret true => .ret (some (cstr t.1 mimetype))
        | .ret false => determine_mimetype_scan BUFSIZ WHITESPACE ext fuel fs1
        | .undefined => .undefined
        | .fuel => .fuel

/-- Determine mime-type from file extension (`utils.c`, `determine_mimetype`).
`ext` is the string `strrchr` points at, which starts with the dot. -/
def determine_mimetype (cfg : config) (W : World) (path : List Char) : Exec (List Char) :=
  match strrchr path '.' with
  | none => .ret cfg.DefaultMimeType
  | some i =>
    let ext := path.drop i
    match W.content cfg.MimeTypesPath with
    | none => .ret cfg.DefaultMimeType
    | some table =>
      match determine_mimetype_scan cfg.BUFSIZ cfg.WHITESPACE ext (table.length + 1)
          { input := table, output := [], room := none } with
      | .ret (some mimetype) => .ret mimetype
      | .ret none => .ret cfg.DefaultMimeType
      | .undefined => .undefined
      | .fuel => .fuel

/-- Determine actual filesystem path based on RootPath and URI (`utils.c`,
`determine_request_path`). `sprintf` into `path[BUFSIZ]` needs room for the
text and its terminator. -/
def determine_request_path (cfg : config) (W : World) (uri : List Char) :
    Exec (Option (List Char)) :=
  let path := cfg.RootPath ++ ['/'] ++ uri
  if path.length < cfg.BUFSIZ then
    let real := W.realpath path
    if strncmp real cfg.RootPath cfg.RootPath.length ≠ 0 then .ret none
    else .ret (some real)
  else .undefined

/-- The file type mask of `<sys/stat.h>`. -/
def S_IFMT : Nat := 0o170000

/-- The directory file type of `<sys/stat.h>`. -/
def S_IFDIR : Nat := 0o040000

/-- The read permission bit of `access`. -/
def R_OK : Nat := 4

/-- The write permission bit of `access`. -/
def W_OK : Nat := 2

/-- The execute permission bit of `access`. -/
def X_OK : Nat := 1

/-- C `stat(path, &s)`: the file information, or failure. A NULL path fails
(`EFAULT`). -/
def stat (W : World) (path : Option (List Char)) : Option inode :=
  match path with
  | none => none
  | some p => W.lookup p

/-- C `access(path, mode)`: 0 when the file exists and every requested
permission is granted, -1 otherwise. -/
def access (W : World) (path : Option (List Char)) (mode : Nat) : Int :=
  match stat W path with
  | none => -1
  | some i =>
    if (mode &&& R_OK ≠ 0 → i.may_read = true) ∧ (mode &&& W_OK ≠ 0 → i.may_write = true) ∧
       (mode &&& X_OK ≠ 0 → i.may_exec = true) then 0 else -1

/-- Determine request type from path (`utils.c`, `determine_request_type`). -/
def determine_request_type (W : World) (path : Option (List Char)) : request_type :=
  match stat W path with
  | none => REQUEST_BAD
  | some s =>
    if s.st_mode &&& S_IFMT = S_IFDIR then REQUEST_BROWSE
    else if access W path (R_OK ||| X_OK) = 0 then REQUEST_CGI
    else if access W path R_OK = 0 then REQUEST_FILE
    else REQUEST_BAD

/-- Return static string corresponding to HTTP status code (`utils.c`). The
`default` branch of the C `switch` serves values outside the enumeration,
which this type does not have. -/
def http_status_string (status : http_status) : List Char :=
  match status with
  | HTTP_STATUS_OK => "200 OK".toList
  | HTTP_STATUS_BAD_REQUEST => "400 Bad Request".toList
  | HTTP_STATUS_NOT_FOUND => "404 NOT FOUND".toList
  | HTTP_STATUS_INTERNAL_SERVER_ERROR => "500 Internal Server Error".toList

/-! ## `handler.c` -/

/-- The `alphasort` comparison of `scandir`: `strcoll` on the entry names,
which is `strcmp` in the "C" locale the server runs in. -/
def alphasort (a b : List Char) : Int := strcmp a b

/-- C `scandir(path, &entries, NULL, alphasort)`: the entry names of the
directory sorted by `alphasort`, or failure. -/
def scandir (W : World) (path : List Char) : Option (List (List Char)) :=
  (W.readdir path).map (fun es => es.insertionSort (fun a b => alphasort a b ≤ 0))

/-- The header scan of `handle_browse_request`: `host` is assigned at every
header named `Host`. -/
def handle_browse_request_host : List header → Option (List Char) → Option (List Char)
  | [], host => host
  | h :: hs, host =>
    handle_browse_request_host hs (if streq h.name "Host".toList then some h.value else host)

/-- The `while (n--)` loop of `handle_browse_request`: one list item for
`entries[n]`, from the last index down to 0. An unassigned `host` is an
uninitialised pointer, and `link[BUFSIZ]` must hold the formatted link. -/
def handle_browse_request_loop (BUFSIZ : Nat) (host : Option (List Char)) (uri : List Char)
    (entries : List (List Char)) : Nat → FILE → Exec FILE
  | 0, f => .ret f
  | n + 1, f =>
    match host with
    | none => .undefined
    | some host =>
      let d_name := entries.getD n []
      let link :=
        if !streq uri ['/'] then host ++ uri ++ ['/'] ++ d_name else host ++ uri ++ d_name
      if link.length < BUFSIZ then
        handle_browse_request_loop BUFSIZ (some host) uri entries n
          (fputs ("<li><a href=".toList ++ [DQUOTE] ++ "http://".toList ++ link ++ [DQUOTE] ++
            "> ".toList ++ d_name ++ "</a></li>\n".toList) f)
      else .undefined

/-- Handle browse request (`handler.c`, `handle_browse_request`). -/
def handle_browse_request (cfg : config) (W : World) (r : request) :
    Exec (http_status × request) :=
  match r.path, r.uri with
  | some path, some uri =>
    match scandir W path with
    | none => .ret (HTTP_STATUS_NOT_FOUND, r)
    | some entries =>
      let host := handle_browse_request_host r.headers none
      let f1 := fputs "HTTP/1.0 200 OK\r\n Content-Type: text/html\r\n\r\n".toList r.file
      let f2 := fputs "<html>\n".toList f1
      let f3 := fputs "<ul>\n".toList f2
      match handle_browse_request_loop cfg.BUFSIZ host uri entries entries.length f3 with
      | .ret f4 =>
        let f5 := fputs "</ul>\n".toList f4
        let f6 := fputs "</html>\n".toList f5
        .ret (HTTP_STATUS_OK, { r with file := f6 })
      | .undefined => .undefined
      | .fuel => .fuel
  | _, _ => .undefined

/-- The chunk loop of `handle_file_request`: `false` on a short write. -/
def handle_file_request_loop (BUFSIZ : Nat) : Nat → FILE → FILE → Exec (Bool × FILE)
  | 0, _, _ => .fuel
  | fuel + 1, fs, out =>
    let chunk := fread BUFSIZ fs
    if chunk.1.length > 0 then
      let w := fwrite chunk.1 out
      if chunk.1.length ≠ w.1 then .ret (false, w.2)
      else handle_file_request_loop BUFSIZ fuel chunk.2 w.2
    else .ret (true, out)

/-- Handle file request (`handler.c`, `handle_file_request`). -/
def handle_file_request (cfg : config) (W : World) (r : request) :
    Exec (http_status × request) :=
  match r.path with
  | none => .undefined
  | some path =>
    match W.content path with
    | none => .ret (HTTP_STATUS_NOT_FOUND, r)
    | some bytes =>
      match determine_mimetype cfg W path with
      | .ret mimetype =>
        let f1 := fputs ("HTTP/1.0 200 OK\r\n Content-Type: ".toList ++ mimetype ++
          "\r\n\r\n".toList) r.file
        match handle_file_request_loop cfg.BUFSIZ (bytes.length + 1)
            { input := bytes, output := [], room := none } f1 with
        | .ret (true, f2) => .ret (HTTP_STATUS_OK, { r with file := f2 })
        | .ret (false, f2) => .ret (HTTP_STATUS_INTERNAL_SERVER_ERROR, { r with file := f2 })
        | .undefined => .undefined
        | .fuel => .fuel
      | .undefined => .undefined
      | .fuel => .fuel

/-- C `getenv(name)`. -/
def getenv (env : environ) (name : List Char) : Option (List Char) :=
  match env with
  | [] => none
  | (k, v) :: rest => if k = name then some v else getenv rest name

/-- C `setenv(name, value, 1)`: replace the variable when it exists, add it
otherwise. -/
def setenv (env : environ) (name value : List Char) : environ :=
  match env with
  | [] => [(name, value)]
  | (k, v) :: rest => if k = name then (k, value) :: rest else (k, v) :: setenv rest name value

/-- The header export loop of `handle_cgi_request`. -/
def handle_cgi_request_headers : List header → environ → environ
  | [], env => env
  | h :: hs, env =>
    handle_cgi_request_headers hs
      (if streq h.name "Accept".toList then setenv env "HTTP_ACCEPT".toList h.value
       else if streq h.name "Host".toList then setenv env "HTTP_HOST".toList h.value
       else if streq h.name "Accept-Language".toList then
         setenv env "HTTP_ACCEPT_LANGUAGE".toList h.value
       else if streq h.name "Accept-Encoding".toList then
         setenv env "HTTP_ACCEPT_ENCODING".toList h.value
       else if streq h.name "Connection".toList then
         setenv env "HTTP_CONNECTION".toList h.value
       else if streq h.name "User-Agent".toList then
         setenv env "HTTP_USER_AGENT".toList h.value
       else env)

/-- The copy loop of `handle_cgi_request`: each `fgets` buffer is written with
`fputs`, which stops at the first terminator. -/
def handle_cgi_request_loop (BUFSIZ : Nat) : Nat → FILE → FILE → Exec FILE
  | 0, _, _ => .fuel
  | fuel + 1, pfs, out =>
    match fgets BUFSIZ pfs with
    | (none, _) => .ret out
    | (some buffer, pfs1) => handle_cgi_request_loop BUFSIZ fuel pfs1 (fputs (cstr buffer 0) out)

/-- Handle CGI request (`handler.c`, `handle_cgi_request`). A NULL `query`,
`method`, `uri` or `path` handed to `setenv` is a null pointer use. -/
def handle_cgi_request (cfg : config) (W : World) (env : environ) (r : request) :
    Exec (http_status × request × environ) :=
  match r.query, r.method, r.uri, r.path with
  | some query, some method, some uri, some path =>
    let e1 := setenv env "DOCUMENT_ROOT".toList cfg.RootPath
    let e2 := setenv e1 "QUERY_STRING".toList query
    let e3 := setenv e2 "REMOTE_ADDR".toList r.host
    let e4 := setenv e3 "REMOTE_PORT".toList r.port
    let e5 := setenv e4 "REQUEST_METHOD".toList method
    let e6 := setenv e5 "REQUEST_URI".toList uri
    let e7 := setenv e6 "SCRIPT_FILENAME".toList path
    let e8 := setenv e7 "SERVER_PORT".toList cfg.Port
    let e9 := handle_cgi_request_headers r.headers e8
    match W.run path e9 with
    | none => .ret (HTTP_STATUS_INTERNAL_SERVER_ERROR, r, e9)
    | some out =>
      match handle_cgi_request_loop cfg.BUFSIZ (out.length + 1)
          { input := out, output := [], room := none } r.file with
      | .ret f => .ret (HTTP_STATUS_OK, { r with file := f }, e9)
      | .undefined => .undefined
      | .fuel => .fuel
  | _, _, _, _ => .undefined

/-- Handle displaying error page (`handler.c`, `handle_error`). -/
def handle_error (r : request) (status : http_status) : http_status × request :=
  let status_string := http_status_string status
  let f1 := fputs ("HTTP/1.0 ".toList ++ status_string ++ "\r\n".toList) r.file
  let f2 := fputs "Content-Type: text/html\r\n".toList f1
  let f3 := fputs "\r\n".toList f2
  let f4 := fputs status_string f3
  (status, { r with file := f4 })

/-- Handle HTTP request (`handler.c`, `handle_request`). The local `result` is
assigned only by a handler: the returned status is `none` when the function
returns the variable as it was declared, without a value. -/
def handle_request (cfg : config) (W : World) (env : environ) (r : request) :
    Exec (Option http_status × request × environ) :=
  match parse_request cfg.BUFSIZ cfg.WHITESPACE r with
  | .ret (rstatus, r1) =>
    if rstatus = 0 then
      match r1.uri with
      | none => .undefined
      | some uri =>
        match determine_request_path cfg W uri with
        | .ret path =>
          let r2 := { r1 with path := path }
          let rtype := determine_request_type W r2.path
          if rtype = REQUEST_BROWSE then
            match handle_browse_request cfg W r2 with
            | .ret (result, r3) => .ret (some result, r3, env)
            | .undefined => .undefined
            | .fuel => .fuel
          else if rtype = REQUEST_CGI then
            match handle_cgi_request cfg W env r2 with
            | .ret (result, r3, env1) => .ret (some result, r3, env1)
            | .undefined => .undefined
            | .fuel => .fuel
          else if rtype = REQUEST_FILE then
            match handle_file_request cfg W r2 with
            | .ret (result, r3) => .ret (some result, r3, env)
            | .undefined => .undefined
            | .fuel => .fuel
          else .ret (none, r2, env)
        | .undefined => .undefined
        | .fuel => .fuel
    else .ret (none, r1, env)
  | .undefined => .undefined
  | .fuel => .fuel

/-- The line that carries a header on the wire: `Name: value` CRLF. -/
def header_line (h : header) : List Char :=
  h.name ++ ':' :: ' ' :: h.value ++ ['\r', '\n']

/-! ## A concrete server, for evaluating the code

Document root `/srv/www` holding `a.txt` (read only), `b.html` (read only),
`hello.cgi` (read and execute) and `secret` (no permission), on the
configuration of `spidey.c` with glibc's `BUFSIZ`. -/

/-- The globals of `spidey.c` after start-up with `-r /srv/www`. -/
def example_config : config where
  BUFSIZ := 8192
  WHITESPACE := " \t\n".toList
  Port := "9898".toList
  MimeTypesPath := "/etc/mime.types".toList
  DefaultMimeType := "text/plain".toList
  RootPath := "/srv/www".toList

/-- A file system with the document root `/srv/www` and a sibling `/srv/www2`. -/
def example_world : World where
  realpath := fun p =>
    if p = "/srv/www//".toList then "/srv/www".toList
    else if p = "/srv/www//a.txt".toList then "/srv/www/a.txt".toList
    else if p = "/srv/www//hello.cgi".toList then "/srv/www/hello.cgi".toList
    else if p = "/srv/www//secret".toList then "/srv/www/secret".toList
    else if p = "/srv/www//nofile".toList then "/srv/www/nofile".toList
    else if p = "/srv/www//../www2/x".toList then "/srv/www2/x".toList
    else if p = "/srv/www//../../etc/passwd".toList then "/etc/passwd".toList
    else p
  lookup := fun p =>
    if p = "/srv/www".toList then some ⟨0o040755, true, true, true⟩
    else if p = "/srv/www/a.txt".toList then some ⟨0o100644, true, false, false⟩
    else if p = "/srv/www/b.html".toList then some ⟨0o100644, true, false, false⟩
    else if p = "/srv/www/hello.cgi".toList then some ⟨0o100755, true, false, true⟩
    else if p = "/srv/www/secret".toList then some ⟨0o100000, false, false, false⟩
    else if p = "/etc/passwd".toList then some ⟨0o100644, true, false, false⟩
    else none
  readdir := fun p =>
    if p = "/srv/www".toList then some ["b.html".toList, "a.txt".toList] else none
  content := fun p =>
    if p = "/srv/www/a.txt".toList then some "hello".toList
    else if p = "/etc/mime.types".toList then
      some "text/html html htm\ntext/plain txt\n".toList
    else if p = "/etc/passwd".toList then some "root:x:0:0\n".toList
    else none
  run := fun p _ =>
    if p = "/srv/www/hello.cgi".toList then some "HTTP/1.0 200 OK\r\n\r\nhi\n".toList
    else none

/-- A freshly accepted request (`accept_request`: every pointer field NULL, the
header list NULL) whose client sends `wire`. -/
def example_request (wire : String) : request where
  file := { input := wire.toList, output := [], room := none }
  host := "127.0.0.1".toList
  port := "40000".toList
  method := none
  uri := none
  path := none
  query := none
  headers := []

/-- A header list as `parse_request_headers` leaves it (newest first) for the
wire lines `Accept: text/html`, `Host: a`, `X-Token: z`, `Host: b`. -/
def example_headers : List header :=
  [{ name := "Host".toList, value := "b".toList },
   { name := "X-Token".toList, value := "z".toList },
   { name := "Host".toList, value := "a".toList },
   { name := "Accept".toList, value := "text/html".toList }]

/-- A process environment holding `HTTP_CONNECTION` and `PATH`. -/
def example_environ : environ :=
  [("HTTP_CONNECTION".toList, "close".toList), ("PATH".toList, "/bin".toList)]

/-- What a caller and the client observe of `handle_request`: the returned
status and the bytes written to the client. -/
def handle_request_observed (x : Exec (Option http_status × request × environ)) :
    Exec (Option http_status × List Char) :=
  match x with
  | .ret (status, r, _) => .ret (status, r.file.output)
  | .undefined => .undefined
  | .fuel => .fuel

/-! # Theorems

## Path resolution -/

/-- Comparing the first `strlen(b)` bytes against `b` gives 0 exactly when `b`
is a prefix. -/
theorem strncmp_self_length (b : List Char) (hb : NUL ∉ b) (a : List Char) :
    strncmp a b b.length = 0 ↔ b <+: a := by
  induction b generalizing a with
  | nil => simp [strncmp]
  | cons y ys ih =>
    have hy : y ≠ NUL := fun h => hb (by simp [h])
    have hys : NUL ∉ ys := fun h => hb (by simp [h])
    cases a with
    | nil =>
      have h0 : y.toNat ≠ 0 := by
        intro h
        apply hy
        apply Char.ext
        apply UInt32.ext
        simpa [NUL, Char.toNat] using h
      simp [strncmp]
      omega
    | cons x xs =>
      by_cases hxy : x = y
      · subst hxy
        simp [strncmp, ih hys xs, List.cons_prefix_cons]
      · have hne : (x.toNat : Int) - (y.toNat : Int) ≠ 0 := by
          intro h
          apply hxy
          apply Char.ext
          apply UInt32.ext
          have : x.toNat = y.toNat := by omega
          simpa [Char.toNat] using this
        simp [strncmp, hxy, hne, List.cons_prefix_cons]
        intro h
        exact absurd h.symm hxy

/-- C1. `determine_request_path` returns a path exactly when the canonical
document root is a byte-prefix of the canonical result, the returned path is
then that canonical string, and otherwise the result is absent; with root
`/srv/www` a request canonicalizing to `/srv/www2/x` is accepted. -/
theorem determine_request_path_prefix_check (cfg : config) (W : World) (uri : List Char)
    (hroot : NUL ∉ cfg.RootPath)
    (hfit : (cfg.RootPath ++ ['/'] ++ uri).length < cfg.BUFSIZ) :
    (∀ p, determine_request_path cfg W uri = .ret (some p) ↔
        (cfg.RootPath <+: W.realpath (cfg.RootPath ++ ['/'] ++ uri) ∧
          p = W.realpath (cfg.RootPath ++ ['/'] ++ uri))) ∧
    (determine_request_path cfg W uri = .ret none ↔
        ¬ cfg.RootPath <+: W.realpath (cfg.RootPath ++ ['/'] ++ uri)) ∧
    (cfg.RootPath = "/srv/www".toList →
      W.realpath (cfg.RootPath ++ ['/'] ++ uri) = "/srv/www2/x".toList →
      determine_request_path cfg W uri = .ret (some "/srv/www2/x".toList)) := by
  have key := strncmp_self_length cfg.RootPath hroot (W.realpath (cfg.RootPath ++ ['/'] ++ uri))
  simp only [determine_request_path]
  rw [if_pos hfit]
  generalize W.realpath (cfg.RootPath ++ ['/'] ++ uri) = real at key ⊢
  by_cases hp : cfg.RootPath <+: real
  · have h0 : strncmp real cfg.RootPath cfg.RootPath.length = 0 := key.mpr hp
    rw [if_neg (fun h => h h0)]
    refine ⟨fun p => ?_, ?_, ?_⟩
    · constructor
      · intro h
        injection h with h
        injection h with h
        exact ⟨hp, h.symm⟩
      · rintro ⟨_, rfl⟩
        rfl
    · constructor
      · intro h
        injection h with h
        cases h
      · intro h
        exact absurd hp h
    · intro _ hreal
      rw [hreal]
  · have h0 : strncmp real cfg.RootPath cfg.RootPath.length ≠ 0 := fun h => hp (key.mp h)
    rw [if_pos h0]
    refine ⟨fun p => ?_, ?_, ?_⟩
    · constructor
      · intro h
        injection h with h
        cases h
      · rintro ⟨h, _⟩
        exact absurd h hp
    · exact ⟨fun _ => hp, fun _ => rfl⟩
    · intro hroot2 hreal
      exfalso
      apply hp
      rw [hreal, hroot2]
      decide

/-- C1 at the server of this file: root `/srv/www`, URI `/../www2/x`. -/
theorem determine_request_path_prefix_check_witness :
    NUL ∉ example_config.RootPath ∧
    (example_config.RootPath ++ ['/'] ++ "/../www2/x".toList).length < example_config.BUFSIZ ∧
    determine_request_path example_config example_world "/../www2/x".toList =
      .ret (some "/srv/www2/x".toList) :=
  ⟨by decide, by decide,
    (determine_request_path_prefix_check example_config example_world "/../www2/x".toList
      (by decide) (by decide)).2.2 (by decide) (by decide)⟩

/-! ## Classification -/

/-- C5. An unstatable path is BAD and a directory is BROWSE; a statable path
that is not a directory is CGI when readable and executable, FILE when
readable but not executable, and BAD when not readable. -/
theorem determine_request_type_order (W : World) (path : Option (List Char)) :
    (stat W path = none → determine_request_type W path = REQUEST_BAD) ∧
    (∀ s, stat W path = some s →
      (s.st_mode &&& S_IFMT = S_IFDIR → determine_request_type W path = REQUEST_BROWSE) ∧
      (s.st_mode &&& S_IFMT ≠ S_IFDIR →
        (s.may_read = true ∧ s.may_exec = true →
          determine_request_type W path = REQUEST_CGI) ∧
        (s.may_read = true ∧ s.may_exec = false →
          determine_request_type W path = REQUEST_FILE) ∧
        (s.may_read = false → determine_request_type W path = REQUEST_BAD))) := by
  have m1 : (R_OK ||| X_OK) &&& R_OK ≠ 0 := by decide
  have m2 : (R_OK ||| X_OK) &&& W_OK = 0 := by decide
  have m3 : (R_OK ||| X_OK) &&& X_OK ≠ 0 := by decide
  have m4 : R_OK &&& R_OK ≠ 0 := by decide
  have m5 : R_OK &&& W_OK = 0 := by decide
  have m6 : R_OK &&& X_OK = 0 := by decide
  refine ⟨fun h => ?_, fun s h => ⟨fun hd => ?_, fun hd => ⟨?_, ?_, ?_⟩⟩⟩
  · simp [determine_request_type, h]
  · simp [determine_request_type, h, hd]
  · rintro ⟨hr, hx⟩
    simp [determine_request_type, access, h, hd, m1, m2, m3, hr, hx]
  · rintro ⟨hr, hx⟩
    simp [determine_request_type, access, h, hd, m1, m2, m3, m4, m5, m6, hr, hx]
  · intro hr
    have m7 : R_OK ≠ 0 := by decide
    simp [determine_request_type, access, h, hd, m1, m2, m3, m4, m5, m6, m7, hr]

/-- C5 at the server of this file: a missing file, the root directory, a
script, a plain file and a file without read permission. -/
theorem determine_request_type_order_witness :
    determine_request_type example_world (some "/srv/www/nofile".toList) = REQUEST_BAD ∧
    determine_request_type example_world (some "/srv/www".toList) = REQUEST_BROWSE ∧
    determine_request_type example_world (some "/srv/www/hello.cgi".toList) = REQUEST_CGI ∧
    determine_request_type example_world (some "/srv/www/a.txt".toList) = REQUEST_FILE ∧
    determine_request_type example_world (some "/srv/www/secret".toList) = REQUEST_BAD :=
  ⟨(determine_request_type_order example_world (some "/srv/www/nofile".toList)).1 (by decide),
   ((determine_request_type_order example_world (some "/srv/www".toList)).2
      ⟨0o040755, true, true, true⟩ (by decide)).1 (by decide),
   (((determine_request_type_order example_world (some "/srv/www/hello.cgi".toList)).2
      ⟨0o100755, true, false, true⟩ (by decide)).2 (by decide)).1 (by decide),
   (((determine_request_type_order example_world (some "/srv/www/a.txt".toList)).2
      ⟨0o100644, true, false, false⟩ (by decide)).2 (by decide)).2.1 (by decide),
   (((determine_request_type_order example_world (some "/srv/www/secret".toList)).2
      ⟨0o100000, false, false, false⟩ (by decide)).2 (by decide)).2.2 (by decide)⟩

/-! ## Dispatch -/

set_option maxRecDepth 100000 in
/-- C2, evaluated. A request whose path canonicalizes outside the document
root, and a request for a missing file, both parse and are classified BAD;
`handle_request` then returns its unassigned `result` and writes nothing to
the client: no not-found status is produced. -/
theorem handle_request_bad_returns_unassigned :
    handle_request_observed (handle_request example_config example_world []
      (example_request "GET /../../etc/passwd HTTP/1.0\r\nHost: localhost\r\n\r\n")) =
      .ret (none, []) ∧
    handle_request_observed (handle_request example_config example_world []
      (example_request "GET /nofile HTTP/1.0\r\nHost: localhost\r\n\r\n")) =
      .ret (none, []) := by
  constructor <;> decide

set_option maxRecDepth 100000 in
/-- C6, evaluated. A request line followed by the blank line fails to parse;
`handle_request` then returns its unassigned `result` and writes nothing,
whereas `handle_error` with the bad-request status would have written a
response. -/
theorem handle_request_parse_failure_returns_unassigned :
    handle_request_observed (handle_request example_config example_world []
      (example_request "GET / HTTP/1.0\r\n\r\n")) = .ret (none, []) ∧
    (handle_error (example_request "") HTTP_STATUS_BAD_REQUEST).1 = HTTP_STATUS_BAD_REQUEST ∧
    (handle_error (example_request "") HTTP_STATUS_BAD_REQUEST).2.file.output =
      "HTTP/1.0 400 Bad Request\r\nContent-Type: text/html\r\n\r\n400 Bad Request".toList := by
  refine ⟨?_, ?_, ?_⟩ <;> decide

set_option maxRecDepth 100000 in
/-- C8, evaluated. On the header line `Host localhost`, which has no colon,
`strchr` returns NULL and the code goes on to read through `NULL + 1`:
`parse_request_headers` does not return -1. -/
theorem parse_request_headers_no_colon_undefined :
    parse_request_headers 8192 (example_request "Host localhost\r\n\r\n") = .undefined := by
  decide

set_option maxRecDepth 100000 in
/-- C9, evaluated. For the directory holding `a.txt` and `b.html`, `scandir`
delivers `a.txt` before `b.html`, and the list item of `b.html` is written
before the list item of `a.txt`. -/
theorem handle_browse_request_descending :
    scandir example_world "/srv/www".toList = some ["a.txt".toList, "b.html".toList] ∧
    handle_request_observed (handle_request example_config example_world []
      (example_request "GET / HTTP/1.0\r\nHost: localhost\r\n\r\n")) =
      .ret (some HTTP_STATUS_OK,
        "HTTP/1.0 200 OK\r\n Content-Type: text/html\r\n\r\n<html>\n<ul>\n".toList ++
        "<li><a href=".toList ++ [DQUOTE] ++ "http://localhost/b.html".toList ++ [DQUOTE] ++
        "> b.html</a></li>\n".toList ++
        "<li><a href=".toList ++ [DQUOTE] ++ "http://localhost/a.txt".toList ++ [DQUOTE] ++
        "> a.txt</a></li>\n".toList ++ "</ul>\n</html>\n".toList) := by
  constructor <;> decide

set_option maxRecDepth 100000 in
/-- C10, evaluated. For the file `a.txt` holding `hello`, the second line of
the response starts with a space: the bytes written are `HTTP/1.0 200 OK`
CRLF, a space, `Content-Type: text/plain` CRLF, CRLF, `hello`. -/
theorem handle_file_request_leading_space :
    handle_request_observed (handle_request example_config example_world []
      (example_request "GET /a.txt HTTP/1.0\r\nHost: localhost\r\n\r\n")) =
      .ret (some HTTP_STATUS_OK,
        "HTTP/1.0 200 OK\r\n Content-Type: text/plain\r\n\r\nhello".toList) := by
  decide

/-! ## Buffer lemmas -/

/-- The byte right after a prefix. -/
theorem peek_append (pre : List Char) (c : Char) (post : List Char) :
    peek (pre ++ c :: post) pre.length = c := by
  induction pre with
  | nil => rfl
  | cons x xs ih => simpa [peek] using ih

/-- Overwriting the byte right after a prefix. -/
theorem set_append (pre : List Char) (d c : Char) (post : List Char) :
    (pre ++ d :: post).set pre.length c = pre ++ c :: post := by
  induction pre with
  | nil => rfl
  | cons x xs ih => simp [ih]

/-- A run satisfying `p` followed by a byte failing it is what `takeWhile`
takes. -/
theorem takeWhile_run (p : Char → Bool) (tok : List Char) (d : Char) (post : List Char)
    (htok : ∀ c ∈ tok, p c = true) (hd : p d = false) :
    (tok ++ d :: post).takeWhile p = tok := by
  induction tok with
  | nil => simp [hd]
  | cons x xs ih =>
    have hx : p x = true := htok x (by simp)
    have hxs : ∀ c ∈ xs, p c = true := fun c hc => htok c (by simp [hc])
    simp [List.takeWhile_cons, hx, ih hxs]

/-- The string at the end of a prefix, up to the next terminator. -/
theorem cstr_append (pre tok post : List Char) (htok : NUL ∉ tok) :
    cstr (pre ++ (tok ++ NUL :: post)) pre.length = tok := by
  unfold cstr
  rw [List.drop_left]
  apply takeWhile_run
  · intro c hc
    have : c ≠ NUL := fun h => htok (h ▸ hc)
    simpa using this
  · simp

/-- The buffer `fgets` fills is read as the line followed by its terminator. -/
theorem fgets_take_line (body rest : List Char) (k : Nat) (hbody : '\n' ∉ body)
    (hk : body.length < k) :
    fgets_take k (body ++ '\n' :: rest) = (body ++ ['\n'], rest) := by
  induction body generalizing k with
  | nil =>
    cases k with
    | zero => omega
    | succ k => simp [fgets_take]
  | cons x xs ih =>
    cases k with
    | zero => omega
    | succ k =>
      have hx : x ≠ '\n' := fun h => hbody (by simp [h])
      have hxs : '\n' ∉ xs := fun h => hbody (by simp [h])
      have hk2 : xs.length < k := by simp at hk; omega
      simp [fgets_take, hx, ih k hxs hk2]

/-- One `fgets` on a stream starting with a whole line that fits the buffer. -/
theorem fgets_line (n : Nat) (f : FILE) (body rest : List Char)
    (hin : f.input = body ++ '\n' :: rest) (hbody : '\n' ∉ body)
    (hn : body.length + 1 < n) :
    fgets n f = (some (body ++ ['\n', NUL]), { f with input := rest }) := by
  have h0 : n ≠ 0 := by omega
  have h1 : n ≠ 1 := by omega
  have ht := fgets_take_line body rest (n - 1) hbody (by omega)
  simp [fgets, h0, h1, hin, ht]

/-- `strchr` finds the first occurrence, when no terminator precedes it. -/
theorem strchr_scan_found (c : Char) (tok post : List Char) (i : Nat)
    (htok : ∀ x ∈ tok, x ≠ c ∧ x ≠ NUL) :
    strchr_scan c (tok ++ c :: post) i = some (i + tok.length) := by
  induction tok generalizing i with
  | nil => simp [strchr_scan]
  | cons x xs ih =>
    have hx := htok x (by simp)
    have hxs : ∀ y ∈ xs, y ≠ c ∧ y ≠ NUL := fun y hy => htok y (by simp [hy])
    simp [strchr_scan, hx.1, hx.2, ih (i + 1) hxs]
    omega

/-- `strchr` returns NULL when the string ends before any occurrence. -/
theorem strchr_scan_none (c : Char) (tok post : List Char) (i : Nat)
    (hc : c ≠ NUL) (htok : c ∉ tok) :
    strchr_scan c (tok ++ NUL :: post) i = none := by
  induction tok generalizing i with
  | nil => simp [strchr_scan, Ne.symm hc]
  | cons x xs ih =>
    have hx : x ≠ c := fun h => htok (by simp [h])
    have hxs : c ∉ xs := fun h => htok (by simp [h])
    by_cases hn : x = NUL
    · simp [strchr_scan, hn, Ne.symm hc]
    · simp [strchr_scan, hx, hn, ih (i + 1) hxs]

/-- No delimiter is skipped when the string starts with a byte outside the
delimiter set. -/
theorem strspn_zero (pre : List Char) (x : Char) (rest delim : List Char) (hx : x ∉ delim) :
    strspn (pre ++ x :: rest) pre.length delim = 0 := by
  simp [strspn, List.drop_left, List.takeWhile_cons, hx]

/-- The token run ends at the first delimiter or terminator. -/
theorem strcspn_run (pre tok : List Char) (d : Char) (post delim : List Char)
    (htok : ∀ c ∈ tok, c ≠ NUL ∧ c ∉ delim) (hd : d = NUL ∨ d ∈ delim) :
    strcspn (pre ++ (tok ++ d :: post)) pre.length delim = tok.length := by
  unfold strcspn
  rw [List.drop_left, takeWhile_run]
  · intro c hc
    have h := htok c hc
    simp [h.1, h.2]
  · rcases hd with h | h
    · simp [h]
    · simp [h]

/-- `strtok` on a token that a delimiter follows: the delimiter is overwritten
with a terminator and the save pointer is left behind it. -/
theorem strtok_token (pre tok post delim : List Char) (d : Char) (s : Option Nat) (save : Nat)
    (hs : s.getD save = pre.length) (hne : tok ≠ [])
    (htok : ∀ c ∈ tok, c ≠ NUL ∧ c ∉ delim) (hd : d ∈ delim) (hd0 : d ≠ NUL) :
    strtok (pre ++ (tok ++ d :: post)) s delim save =
      (pre ++ (tok ++ NUL :: post), some pre.length, pre.length + tok.length + 1) := by
  cases tok with
  | nil => exact absurd rfl hne
  | cons x xs =>
    have hx := htok x (by simp)
    have hp1 : peek (pre ++ (x :: xs ++ d :: post)) pre.length = x := by
      simpa using peek_append pre x (xs ++ d :: post)
    have hsp : strspn (pre ++ (x :: xs ++ d :: post)) pre.length delim = 0 := by
      simpa using strspn_zero pre x (xs ++ d :: post) delim hx.2
    have hcs := strcspn_run pre (x :: xs) d post delim htok (Or.inr hd)
    have hp2 : peek (pre ++ (x :: xs ++ d :: post)) (pre.length + (x :: xs).length) = d := by
      have := peek_append (pre ++ x :: xs) d post
      simpa [List.append_assoc] using this
    have hset : (pre ++ (x :: xs ++ d :: post)).set (pre.length + (x :: xs).length) NUL =
        pre ++ (x :: xs ++ NUL :: post) := by
      simp
    simp only [strtok, hs, hp1, hsp, Nat.add_zero, hcs, hp2, hset, if_neg hx.1, if_neg hd0]

/-- `strtok` on the last token of the string: nothing is written and the save
pointer is left on the terminator. -/
theorem strtok_last (pre tok post delim : List Char) (s : Option Nat) (save : Nat)
    (hs : s.getD save = pre.length) (hne : tok ≠ [])
    (htok : ∀ c ∈ tok, c ≠ NUL ∧ c ∉ delim) :
    strtok (pre ++ (tok ++ NUL :: post)) s delim save =
      (pre ++ (tok ++ NUL :: post), some pre.length, pre.length + tok.length) := by
  cases tok with
  | nil => exact absurd rfl hne
  | cons x xs =>
    have hx := htok x (by simp)
    have hp1 : peek (pre ++ (x :: xs ++ NUL :: post)) pre.length = x := by
      simpa using peek_append pre x (xs ++ NUL :: post)
    have hsp : strspn (pre ++ (x :: xs ++ NUL :: post)) pre.length delim = 0 := by
      simpa using strspn_zero pre x (xs ++ NUL :: post) delim hx.2
    have hcs := strcspn_run pre (x :: xs) NUL post delim htok (Or.inl rfl)
    have hp2 : peek (pre ++ (x :: xs ++ NUL :: post)) (pre.length + (x :: xs).length) = NUL := by
      have := peek_append (pre ++ x :: xs) NUL post
      simpa [List.append_assoc] using this
    simp only [strtok, hs, hp1, hsp, Nat.add_zero, hcs, hp2, if_neg hx.1, if_true]

/-- `strtok` at the terminator returns NULL and writes nothing. -/
theorem strtok_empty (pre post delim : List Char) (s : Option Nat) (save : Nat)
    (hs : s.getD save = pre.length) :
    strtok (pre ++ NUL :: post) s delim save = (pre ++ NUL :: post, none, pre.length) := by
  simp only [strtok, hs, peek_append, if_true]

/-- `skip_whitespace` stops at the first byte that is not whitespace. -/
theorem skip_whitespace_run (pre ws : List Char) (c : Char) (post : List Char)
    (hws : ∀ x ∈ ws, isspace x = true ∧ x ≠ NUL) (hc : isspace c = false ∨ c = NUL) :
    skip_whitespace (pre ++ (ws ++ c :: post)) pre.length = pre.length + ws.length := by
  unfold skip_whitespace
  rw [List.drop_left, takeWhile_run]
  · intro x hx
    have h := hws x hx
    simp [h.1, h.2]
  · rcases hc with h | h
    · simp [h]
    · simp [h]

/-! ## The request line -/

/-- The first two `strtok` calls of `parse_request_method` on a buffer holding
`METHOD SP TOKEN SP ...`: both tokens are cut out and terminated. -/
theorem strtok_method_uri (WHITESPACE method token post : List Char)
    (hsp : ' ' ∈ WHITESPACE) (hws : ∀ c ∈ WHITESPACE, isspace c = true)
    (hm0 : method ≠ []) (hm : ∀ c ∈ method, isspace c = false ∧ c ≠ NUL)
    (ht0 : token ≠ []) (ht : ∀ c ∈ token, isspace c = false ∧ c ≠ NUL) :
    strtok (method ++ ' ' :: (token ++ ' ' :: post)) (some 0) WHITESPACE 0 =
      (method ++ NUL :: (token ++ ' ' :: post), some 0, method.length + 1) ∧
    strtok (method ++ NUL :: (token ++ ' ' :: post)) none WHITESPACE (method.length + 1) =
      (method ++ NUL :: (token ++ NUL :: post), some (method.length + 1),
        method.length + 1 + token.length + 1) := by
  have hnot : ∀ c, isspace c = false → c ∉ WHITESPACE := by
    intro c hc hmem
    rw [hws c hmem] at hc
    cases hc
  have hsp0 : (' ' : Char) ≠ NUL := by decide
  constructor
  · have := strtok_token [] method (token ++ ' ' :: post) WHITESPACE ' ' (some 0) 0 rfl hm0
      (fun c hc => ⟨(hm c hc).2, hnot c (hm c hc).1⟩) hsp hsp0
    simpa using this
  · have := strtok_token (method ++ [NUL]) token post WHITESPACE ' ' none (method.length + 1)
      (by simp) ht0 (fun c hc => ⟨(ht c hc).2, hnot c (ht c hc).1⟩) hsp hsp0
    simpa using this

/-- The request line `METHOD SP URI ? QUERY SP ...` through
`parse_request_method`: the three strings are stored and the line is
consumed. -/
theorem parse_request_method_with_query (BUFSIZ : Nat) (WHITESPACE : List Char) (r : request)
    (method u q tail rest : List Char)
    (hsp : ' ' ∈ WHITESPACE) (hws : ∀ c ∈ WHITESPACE, isspace c = true)
    (hm0 : method ≠ []) (hm : ∀ c ∈ method, isspace c = false ∧ c ≠ NUL)
    (hu0 : u ≠ []) (hu : ∀ c ∈ u, isspace c = false ∧ c ≠ NUL ∧ c ≠ '?')
    (hq : ∀ c ∈ q, isspace c = false ∧ c ≠ NUL)
    (htail : '\n' ∉ tail)
    (hin : r.file.input = method ++ ' ' :: (u ++ '?' :: q) ++ ' ' :: tail ++ '\n' :: rest)
    (hfit : (method ++ ' ' :: (u ++ '?' :: q) ++ ' ' :: tail).length + 1 < BUFSIZ) :
    parse_request_method BUFSIZ WHITESPACE r =
      .ret (0, { r with file := { r.file with input := rest }, method := some method,
                        uri := some u, query := some q }) := by
  have hnl : isspace '\n' = true := by decide
  have hbody : '\n' ∉ method ++ ' ' :: (u ++ '?' :: q) ++ ' ' :: tail := by
    simp only [List.mem_append, List.mem_cons, not_or]
    refine ⟨⟨fun h => ?_, by decide, ⟨fun h => ?_, by decide, fun h => ?_⟩⟩, by decide, htail⟩
    · have := (hm _ h).1
      rw [hnl] at this
      cases this
    · have := (hu _ h).1
      rw [hnl] at this
      cases this
    · have := (hq _ h).1
      rw [hnl] at this
      cases this
  have hf := fgets_line BUFSIZ r.file _ rest hin hbody hfit
  have ht0 : u ++ '?' :: q ≠ [] := by simp
  have ht : ∀ c ∈ u ++ '?' :: q, isspace c = false ∧ c ≠ NUL := by
    intro c hc
    simp only [List.mem_append, List.mem_cons] at hc
    rcases hc with h | h | h
    · exact ⟨(hu c h).1, (hu c h).2.1⟩
    · subst h
      exact ⟨by decide, by decide⟩
    · exact hq c h
  obtain ⟨hk1, hk2⟩ := strtok_method_uri WHITESPACE method (u ++ '?' :: q)
    (tail ++ ['\n', NUL]) hsp hws hm0 hm ht0 ht
  have hbuf : method ++ ' ' :: (u ++ '?' :: q) ++ ' ' :: tail ++ ['\n', NUL] =
      method ++ ' ' :: ((u ++ '?' :: q) ++ ' ' :: (tail ++ ['\n', NUL])) := by simp
  have hchr : strchr (method ++ NUL :: (u ++ '?' :: q ++ NUL :: (tail ++ ['\n', NUL])))
      (method.length + 1) '?' = some (method.length + 1 + u.length) := by
    have e : method ++ NUL :: (u ++ '?' :: q ++ NUL :: (tail ++ ['\n', NUL])) =
        (method ++ [NUL]) ++ (u ++ '?' :: (q ++ NUL :: (tail ++ ['\n', NUL]))) := by simp
    have l : method.length + 1 = (method ++ [NUL]).length := by simp
    unfold strchr
    rw [e, l, List.drop_left, strchr_scan_found _ _ _ _ (fun x hx => ⟨(hu x hx).2.2, (hu x hx).2.1⟩)]
  have hk3 : strtok (method ++ NUL :: (u ++ '?' :: q ++ NUL :: (tail ++ ['\n', NUL])))
      (some (method.length + 1)) ['?'] (method.length + 1 + (u ++ '?' :: q).length + 1) =
      (method ++ NUL :: (u ++ NUL :: (q ++ NUL :: (tail ++ ['\n', NUL]))),
        some (method.length + 1), method.length + 1 + u.length + 1) := by
    have := strtok_token (method ++ [NUL]) u (q ++ NUL :: (tail ++ ['\n', NUL])) ['?'] '?'
      (some (method.length + 1)) (method.length + 1 + (u ++ '?' :: q).length + 1)
      (by simp) hu0 (fun c hc => ⟨(hu c hc).2.1, by simpa using (hu c hc).2.2⟩)
      (by simp) (by decide)
    simpa using this
  have hc1 : cstr (method ++ NUL :: (u ++ NUL :: (q ++ NUL :: (tail ++ ['\n', NUL])))) 0 =
      method := by
    have := cstr_append [] method (u ++ NUL :: (q ++ NUL :: (tail ++ ['\n', NUL])))
      (fun h => (hm _ h).2 rfl)
    simpa using this
  have hc2 : cstr (method ++ NUL :: (u ++ NUL :: (q ++ NUL :: (tail ++ ['\n', NUL]))))
      (method.length + 1) = u := by
    have := cstr_append (method ++ [NUL]) u (q ++ NUL :: (tail ++ ['\n', NUL]))
      (fun h => (hu _ h).2.1 rfl)
    simpa using this
  have hc3 : cstr (method ++ NUL :: (u ++ NUL :: (q ++ NUL :: (tail ++ ['\n', NUL]))))
      (method.length + 1 + u.length + 1) = q := by
    have e : method ++ NUL :: (u ++ NUL :: (q ++ NUL :: (tail ++ ['\n', NUL]))) =
        (method ++ [NUL] ++ u ++ [NUL]) ++ (q ++ NUL :: (tail ++ ['\n', NUL])) := by simp
    have l : method.length + 1 + u.length + 1 = (method ++ [NUL] ++ u ++ [NUL]).length := by
      simp only [List.length_append, List.length_singleton]
    rw [e, l]
    exact cstr_append _ q _ (fun h => (hq _ h).2 rfl)
  simp only [parse_request_method, hf, hbuf, hk1, hk2, hchr, hk3, hc1, hc2, hc3]

/-- The request line `METHOD SP URI SP ...` without a question mark through
`parse_request_method`: the query is stored as the empty string. -/
theorem parse_request_method_without_query (BUFSIZ : Nat) (WHITESPACE : List Char)
    (r : request) (method u tail rest : List Char)
    (hsp : ' ' ∈ WHITESPACE) (hws : ∀ c ∈ WHITESPACE, isspace c = true)
    (hm0 : method ≠ []) (hm : ∀ c ∈ method, isspace c = false ∧ c ≠ NUL)
    (hu0 : u ≠ []) (hu : ∀ c ∈ u, isspace c = false ∧ c ≠ NUL ∧ c ≠ '?')
    (htail : '\n' ∉ tail)
    (hin : r.file.input = method ++ ' ' :: u ++ ' ' :: tail ++ '\n' :: rest)
    (hfit : (method ++ ' ' :: u ++ ' ' :: tail).length + 1 < BUFSIZ) :
    parse_request_method BUFSIZ WHITESPACE r =
      .ret (0, { r with file := { r.file with input := rest }, method := some method,
                        uri := some u, query := some [] }) := by
  have hnl : isspace '\n' = true := by decide
  have hbody : '\n' ∉ method ++ ' ' :: u ++ ' ' :: tail := by
    simp only [List.mem_append, List.mem_cons, not_or]
    refine ⟨⟨fun h => ?_, by decide, fun h => ?_⟩, by decide, htail⟩
    · have := (hm _ h).1
      rw [hnl] at this
      cases this
    · have := (hu _ h).1
      rw [hnl] at this
      cases this
  have hf := fgets_line BUFSIZ r.file _ rest hin hbody hfit
  obtain ⟨hk1, hk2⟩ := strtok_method_uri WHITESPACE method u
    (tail ++ ['\n', NUL]) hsp hws hm0 hm hu0 (fun c hc => ⟨(hu c hc).1, (hu c hc).2.1⟩)
  have hbuf : method ++ ' ' :: u ++ ' ' :: tail ++ ['\n', NUL] =
      method ++ ' ' :: (u ++ ' ' :: (tail ++ ['\n', NUL])) := by simp
  have e : method ++ NUL :: (u ++ NUL :: (tail ++ ['\n', NUL])) =
      (method ++ [NUL]) ++ (u ++ NUL :: (tail ++ ['\n', NUL])) := by simp
  have l : method.length + 1 = (method ++ [NUL]).length := by simp
  have hchr : strchr (method ++ NUL :: (u ++ NUL :: (tail ++ ['\n', NUL])))
      (method.length + 1) '?' = none := by
    unfold strchr
    rw [e, l, List.drop_left, strchr_scan_none _ _ _ _ (by decide) (fun h => (hu _ h).2.2 rfl)]
  have hk3 : strtok (method ++ NUL :: (u ++ NUL :: (tail ++ ['\n', NUL])))
      (some (method.length + 1)) ['?'] (method.length + 1 + u.length + 1) =
      (method ++ NUL :: (u ++ NUL :: (tail ++ ['\n', NUL])),
        some (method.length + 1), method.length + 1 + u.length) := by
    have := strtok_last (method ++ [NUL]) u (tail ++ ['\n', NUL]) ['?']
      (some (method.length + 1)) (method.length + 1 + u.length + 1)
      (by simp) hu0 (fun c hc => ⟨(hu c hc).2.1, by simpa using (hu c hc).2.2⟩)
    simpa using this
  have hc1 : cstr (method ++ NUL :: (u ++ NUL :: (tail ++ ['\n', NUL]))) 0 = method := by
    have := cstr_append [] method (u ++ NUL :: (tail ++ ['\n', NUL]))
      (fun h => (hm _ h).2 rfl)
    simpa using this
  have hc2 : cstr (method ++ NUL :: (u ++ NUL :: (tail ++ ['\n', NUL])))
      (method.length + 1) = u := by
    rw [e, l]
    exact cstr_append _ u _ (fun h => (hu _ h).2.1 rfl)
  simp only [parse_request_method, hf, hbuf, hk1, hk2, hchr, hk3, hc1, hc2]

/-- A list containing `c` splits at the first `c`. -/
theorem split_first (c : Char) (l : List Char) (h : c ∈ l) :
    ∃ s t, l = s ++ c :: t ∧ c ∉ s := by
  induction l with
  | nil => cases h
  | cons x xs ih =>
    by_cases hx : x = c
    · exact ⟨[], xs, by simp [hx], by simp⟩
    · have hmem : c ∈ xs := by
        rcases List.mem_cons.mp h with h | h
        · exact absurd h.symm hx
        · exact h
      obtain ⟨s, t, hst, hs⟩ := ih hmem
      refine ⟨x :: s, t, by simp [hst], ?_⟩
      intro hc
      rcases List.mem_cons.mp hc with h | h
      · exact hx h.symm
      · exact hs h

/-- The split at the first `c` is unique. -/
theorem split_first_unique (c : Char) (s t s2 t2 : List Char)
    (h : s ++ c :: t = s2 ++ c :: t2) (hs : c ∉ s) (hs2 : c ∉ s2) : s = s2 ∧ t = t2 := by
  induction s generalizing s2 with
  | nil =>
    cases s2 with
    | nil => simpa using h
    | cons y ys =>
      simp at h
      exact absurd (by simp [h.1]) hs2
  | cons x xs ih =>
    cases s2 with
    | nil =>
      simp at h
      exact absurd (by simp [h.1]) hs
    | cons y ys =>
      simp at h
      obtain ⟨h1, h2⟩ := ih ys h.2 (fun hc => hs (by simp [hc])) (fun hc => hs2 (by simp [hc]))
      exact ⟨by rw [h.1, h1], h2⟩

/-- A well-formed request line through `parse_request_method`: the call
returns 0, consumes the line, stores the method and leaves every other field
but `uri` and `query` as it was; the query is the text after the first `?` of
the URI token, or empty. -/
theorem parse_request_method_line (BUFSIZ : Nat) (WHITESPACE : List Char) (r : request)
    (method token version rest : List Char)
    (hsp : ' ' ∈ WHITESPACE) (hws : ∀ c ∈ WHITESPACE, isspace c = true)
    (hm0 : method ≠ []) (hm : ∀ c ∈ method, isspace c = false ∧ c ≠ NUL)
    (ht0 : ∃ c, token.head? = some c ∧ c ≠ '?')
    (ht : ∀ c ∈ token, isspace c = false ∧ c ≠ NUL)
    (hv : '\n' ∉ version)
    (hin : r.file.input =
      method ++ [' '] ++ token ++ [' '] ++ "HTTP/".toList ++ version ++ ['\r', '\n'] ++ rest)
    (hfit : (method ++ [' '] ++ token ++ [' '] ++ "HTTP/".toList ++ version ++
      ['\r', '\n']).length < BUFSIZ) :
    ∃ u q, parse_request_method BUFSIZ WHITESPACE r =
        .ret (0, { r with file := { r.file with input := rest }, method := some method,
                          uri := some u, query := some q }) ∧
      (∀ pre post, token = pre ++ '?' :: post → '?' ∉ pre → q = post) ∧
      ('?' ∉ token → q = []) := by
  have htail : '\n' ∉ "HTTP/".toList ++ version ++ ['\r'] := by
    simp only [List.mem_append, not_or]
    exact ⟨⟨by decide, hv⟩, by decide⟩
  by_cases hq : '?' ∈ token
  · obtain ⟨u, q, hsplit, hu⟩ := split_first '?' token hq
    have hu0 : u ≠ [] := by
      rintro rfl
      obtain ⟨c, hc, hne⟩ := ht0
      rw [hsplit] at hc
      simp at hc
      exact hne hc.symm
    have hres := parse_request_method_with_query BUFSIZ WHITESPACE r method u q
      ("HTTP/".toList ++ version ++ ['\r']) rest hsp hws hm0 hm hu0
      (fun c hc => ⟨(ht c (by simp [hsplit, hc])).1, (ht c (by simp [hsplit, hc])).2,
        fun h => hu (h ▸ hc)⟩)
      (fun c hc => ht c (by simp [hsplit, hc])) htail
      (by rw [hin, hsplit]; simp)
      (by rw [hsplit] at hfit; simp at hfit ⊢; omega)
    refine ⟨u, q, hres, ?_, fun h => absurd hq h⟩
    intro pre post hpp hpre
    exact (split_first_unique '?' u q pre post (by rw [← hsplit, hpp]) hu hpre).2
  · have ht1 : token ≠ [] := by
      rintro rfl
      obtain ⟨c, hc, _⟩ := ht0
      simp at hc
    have hres := parse_request_method_without_query BUFSIZ WHITESPACE r method token
      ("HTTP/".toList ++ version ++ ['\r']) rest hsp hws hm0 hm ht1
      (fun c hc => ⟨(ht c hc).1, (ht c hc).2, fun h => hq (h ▸ hc)⟩) htail
      (by rw [hin]; simp)
      (by simp at hfit ⊢; omega)
    refine ⟨token, [], hres, ?_, fun _ => rfl⟩
    intro pre post hpp _
    exact absurd (by simp [hpp]) hq

/-- C3. For a well-formed request line `METHOD SP URI[?QUERY] SP HTTP/VERSION`
CRLF that fits the line buffer, `parse_request_method` returns 0 and the stored
query is the text of the URI token after its first `?` when the token has one,
and the empty string (present) when it has none. -/
theorem parse_request_method_query (BUFSIZ : Nat) (WHITESPACE : List Char) (r : request)
    (method token version rest : List Char)
    (hsp : ' ' ∈ WHITESPACE) (hws : ∀ c ∈ WHITESPACE, isspace c = true)
    (hm0 : method ≠ []) (hm : ∀ c ∈ method, isspace c = false ∧ c ≠ NUL)
    (ht0 : ∃ c, token.head? = some c ∧ c ≠ '?')
    (ht : ∀ c ∈ token, isspace c = false ∧ c ≠ NUL)
    (hv : '\n' ∉ version)
    (hin : r.file.input =
      method ++ [' '] ++ token ++ [' '] ++ "HTTP/".toList ++ version ++ ['\r', '\n'] ++ rest)
    (hfit : (method ++ [' '] ++ token ++ [' '] ++ "HTTP/".toList ++ version ++
      ['\r', '\n']).length < BUFSIZ) :
    ∃ r1, parse_request_method BUFSIZ WHITESPACE r = .ret (0, r1) ∧
      (∀ pre post, token = pre ++ '?' :: post → '?' ∉ pre → r1.query = some post) ∧
      ('?' ∉ token → r1.query = some []) := by
  obtain ⟨u, q, hres, h1, h2⟩ := parse_request_method_line BUFSIZ WHITESPACE r method token
    version rest hsp hws hm0 hm ht0 ht hv hin hfit
  refine ⟨_, hres, fun pre post hpp hpre => ?_, fun hq => ?_⟩
  · rw [h1 pre post hpp hpre]
  · rw [h2 hq]

/-- C3 on the request line `GET /cgi.script?q=foo HTTP/1.0`. -/
theorem parse_request_method_query_witness :
    ∃ r1, parse_request_method 8192 " \t\n".toList
        (example_request "GET /cgi.script?q=foo HTTP/1.0\r\nHost: localhost\r\n\r\n") =
        .ret (0, r1) ∧ r1.query = some "q=foo".toList := by
  obtain ⟨r1, h1, h2, _⟩ := parse_request_method_query 8192 " \t\n".toList
    (example_request "GET /cgi.script?q=foo HTTP/1.0\r\nHost: localhost\r\n\r\n")
    "GET".toList "/cgi.script?q=foo".toList "1.0".toList "Host: localhost\r\n\r\n".toList
    (by decide) (by decide) (by decide) (by decide) ⟨'/', rfl, by decide⟩ (by decide)
    (by decide) (by decide) (by decide)
  exact ⟨r1, h1, h2 "/cgi.script".toList "q=foo".toList (by decide) (by decide)⟩

set_option maxRecDepth 100000 in
/-- Outside the grammar: a URI token with nothing before its `?`. `strtok(uri,
"?")` skips the leading `?` and cuts at the next one, so for `?a?b` the stored
URI is `?a` and the stored query is `a`. -/
theorem parse_request_method_empty_path :
    parse_request_method 8192 " \t\n".toList
        (example_request "GET ?a?b HTTP/1.0\r\n") =
      .ret (0, { example_request "" with
        method := some "GET".toList, uri := some "?a".toList, query := some "a".toList }) := by
  decide

/-! ## The header block -/

/-- One turn of the header loop on a line `Name: value` CRLF: the header is
put in front of the list and the loop goes on behind the line. -/
theorem parse_request_headers_loop_line (BUFSIZ fuel : Nat) (r : request)
    (name value rest : List Char)
    (hn0 : name ≠ []) (hn : ∀ c ∈ name, c ≠ ':' ∧ c ≠ NUL ∧ c ≠ '\n')
    (hv : ∀ c ∈ value, c ≠ '\r' ∧ c ≠ '\n' ∧ c ≠ NUL)
    (hv0 : ∀ c, value.head? = some c → isspace c = false)
    (hin : r.file.input = name ++ ':' :: ' ' :: value ++ '\r' :: '\n' :: rest)
    (hfit : (name ++ ':' :: ' ' :: value ++ ['\r', '\n']).length < BUFSIZ) :
    parse_request_headers_loop BUFSIZ (fuel + 1) r =
      parse_request_headers_loop BUFSIZ fuel
        { r with file := { r.file with input := rest },
                 headers := { name := name, value := value } :: r.headers } := by
  have hbody : '\n' ∉ name ++ ':' :: ' ' :: value ++ ['\r'] := by
    simp only [List.mem_append, List.mem_cons, not_or]
    exact ⟨⟨fun h => (hn _ h).2.2 rfl, by decide, by decide, fun h => (hv _ h).2.1 rfl⟩,
      by decide, by simp⟩
  have hf := fgets_line BUFSIZ r.file (name ++ ':' :: ' ' :: value ++ ['\r']) rest
    (by rw [hin]; simp) hbody (by simp at hfit ⊢; omega)
  have hbuf : name ++ ':' :: ' ' :: value ++ ['\r'] ++ ['\n', NUL] =
      name ++ ':' :: ' ' :: (value ++ ['\r', '\n', NUL]) := by simp
  have hlen : strlen (name ++ ':' :: ' ' :: (value ++ ['\r', '\n', NUL])) 0 > 2 := by
    have := cstr_append [] (name ++ ':' :: ' ' :: (value ++ ['\r', '\n'])) [] (by
      simp only [List.mem_append, List.mem_cons, not_or]
      exact ⟨fun h => (hn _ h).2.1 rfl, by decide, by decide,
        fun h => (hv _ h).2.2 rfl, by decide, by decide, by simp⟩)
    simp at this
    simp [strlen, this]
    omega
  have hchr : strchr (name ++ ':' :: ' ' :: (value ++ ['\r', '\n', NUL])) 0 ':' =
      some name.length := by
    simp [strchr, strchr_scan_found ':' name _ 0 (fun x hx => ⟨(hn x hx).1, (hn x hx).2.1⟩)]
  have hk2 : ∀ post save, strtok (name ++ ':' :: post) (some 0) [':'] save =
      (name ++ NUL :: post, some 0, name.length + 1) := by
    intro post save
    have := strtok_token [] name post [':'] ':' (some 0) save rfl hn0
      (fun c hc => ⟨(hn c hc).2.1, by simpa using (hn c hc).1⟩) (by simp) (by decide)
    simpa using this
  have hc1 : ∀ post, cstr (name ++ NUL :: post) 0 = name := by
    intro post
    have := cstr_append [] name post (fun h => (hn _ h).2.1 rfl)
    simpa using this
  cases value with
  | nil =>
    have hskip : skip_whitespace (name ++ ':' :: ' ' :: ([] ++ ['\r', '\n', NUL]))
        (name.length + 1) = name.length + 1 + 3 := by
      have := skip_whitespace_run (name ++ [':']) [' ', '\r', '\n'] NUL []
        (by decide) (Or.inr rfl)
      simpa using this
    have hk1 : strtok (name ++ ':' :: ' ' :: ([] ++ ['\r', '\n', NUL]))
        (some (name.length + 1 + 3)) ['\r', '\n'] 0 =
        (name ++ ':' :: ' ' :: ([] ++ ['\r', '\n', NUL]), none, name.length + 1 + 3) := by
      have := strtok_empty (name ++ [':', ' ', '\r', '\n']) [] ['\r', '\n']
        (some (name.length + 1 + 3)) 0 (by simp)
      simpa using this
    have hc2 : cstr (name ++ NUL :: ' ' :: ([] ++ ['\r', '\n', NUL])) (name.length + 1 + 3) =
        [] := by
      have := cstr_append (name ++ [NUL, ' ', '\r', '\n']) [] [] (by simp)
      simpa using this
    simp only [parse_request_headers_loop, hf, hbuf, hlen, if_true, hchr, hskip, hk1, hk2, hc1,
      hc2]
  | cons x xs =>
    have hx : isspace x = false := hv0 x rfl
    have hskip : skip_whitespace (name ++ ':' :: ' ' :: (x :: xs ++ ['\r', '\n', NUL]))
        (name.length + 1) = name.length + 1 + 1 := by
      have := skip_whitespace_run (name ++ [':']) [' '] x (xs ++ ['\r', '\n', NUL])
        (by decide) (Or.inl hx)
      simpa using this
    have hk1 : strtok (name ++ ':' :: ' ' :: (x :: xs ++ ['\r', '\n', NUL]))
        (some (name.length + 1 + 1)) ['\r', '\n'] 0 =
        (name ++ ':' :: ' ' :: (x :: xs ++ [NUL, '\n', NUL]), some (name.length + 1 + 1),
          name.length + 1 + 1 + (x :: xs).length + 1) := by
      have := strtok_token (name ++ [':', ' ']) (x :: xs) ['\n', NUL] ['\r', '\n'] '\r'
        (some (name.length + 1 + 1)) 0 (by simp) (by simp)
        (fun c hc => ⟨(hv c hc).2.2, by simpa using ⟨(hv c hc).1, (hv c hc).2.1⟩⟩)
        (by simp) (by decide)
      simpa using this
    have hc2 : cstr (name ++ NUL :: ' ' :: (x :: xs ++ [NUL, '\n', NUL]))
        (name.length + 1 + 1) = x :: xs := by
      have := cstr_append (name ++ [NUL, ' ']) (x :: xs) ['\n', NUL]
        (fun h => (hv _ h).2.2 rfl)
      simpa using this
    simp only [parse_request_headers_loop, hf, hbuf, hlen, if_true, hchr, hskip, hk1, hk2, hc1,
      hc2]

/-- The header loop on `Name: value` lines followed by the blank line: every
line is stored, newest first, and the loop ends behind the blank line. -/
theorem parse_request_headers_loop_block (BUFSIZ : Nat) (hB : 2 < BUFSIZ) (lines : List header) :
    ∀ (fuel : Nat) (r : request) (rest : List Char), lines.length < fuel →
    (∀ h ∈ lines, h.name ≠ [] ∧ (∀ c ∈ h.name, c ≠ ':' ∧ c ≠ NUL ∧ c ≠ '\n') ∧
      (∀ c ∈ h.value, c ≠ '\r' ∧ c ≠ '\n' ∧ c ≠ NUL) ∧
      (∀ c ∈ h.value.head?, isspace c = false) ∧
      (header_line h).length < BUFSIZ) →
    r.file.input = (lines.map header_line).flatten ++ '\r' :: '\n' :: rest →
    parse_request_headers_loop BUFSIZ fuel r =
      parse_request_headers_end
        { r with file := { r.file with input := rest },
                 headers := lines.reverse ++ r.headers } := by
  induction lines with
  | nil =>
    intro fuel r rest hfuel _ hin
    cases fuel with
    | zero => omega
    | succ k =>
      have hf := fgets_line BUFSIZ r.file ['\r'] rest (by simpa using hin) (by decide)
        (by simpa using hB)
      have hlen : ¬ strlen (['\r'] ++ ['\n', NUL]) 0 > 2 := by decide
      simp only [parse_request_headers_loop, hf, hlen, if_false, List.reverse_nil,
        List.nil_append]
  | cons h hs ih =>
    intro fuel r rest hfuel hvalid hin
    cases fuel with
    | zero => omega
    | succ k =>
      obtain ⟨h1, h2, h3, h4, h5⟩ := hvalid h (by simp)
      have hstep := parse_request_headers_loop_line BUFSIZ k r h.name h.value
        ((hs.map header_line).flatten ++ '\r' :: '\n' :: rest) h1 h2 h3 h4
        (by simpa [header_line] using hin) (by simpa [header_line] using h5)
      rw [hstep]
      have := ih k
        { r with file := { r.file with input := (hs.map header_line).flatten ++ '\r' :: '\n' :: rest },
                 headers := { name := h.name, value := h.value } :: r.headers }
        rest (by simp at hfuel; omega) (fun x hx => hvalid x (by simp [hx])) rfl
      rw [this]
      simp

/-- A block of header lines has at least as many bytes as lines. -/
theorem header_block_length (lines : List header) :
    lines.length ≤ ((lines.map header_line).flatten).length := by
  induction lines with
  | nil => simp
  | cons h hs ih =>
    have h1 : 1 ≤ (header_line h).length := by
      simp [header_line]
      omega
    simp only [List.map_cons, List.flatten_cons, List.length_append, List.length_cons]
    omega

/-- C4. For a header block of N >= 1 valid `Name: value` lines, each fitting
the line buffer, followed by the blank line, `parse_request_headers` returns 0
and leaves exactly the N headers, in the reverse of the wire order. -/
theorem parse_request_headers_reverse_order (BUFSIZ : Nat) (r : request)
    (lines : List header) (rest : List Char)
    (hN : 1 ≤ lines.length)
    (hvalid : ∀ h ∈ lines, h.name ≠ [] ∧ (∀ c ∈ h.name, c ≠ ':' ∧ c ≠ NUL ∧ c ≠ '\n') ∧
      (∀ c ∈ h.value, c ≠ '\r' ∧ c ≠ '\n' ∧ c ≠ NUL) ∧
      (∀ c ∈ h.value.head?, isspace c = false) ∧
      (header_line h).length < BUFSIZ)
    (hnull : r.headers = [])
    (hin : r.file.input = (lines.map header_line).flatten ++ '\r' :: '\n' :: rest) :
    parse_request_headers BUFSIZ r =
      .ret (0, { r with file := { r.file with input := rest }, headers := lines.reverse }) := by
  cases lines with
  | nil => simp at hN
  | cons h hs =>
    have hB : 2 < BUFSIZ := by
      have := (hvalid h (by simp)).2.2.2.2
      simp [header_line] at this
      omega
    have hfuel : (h :: hs).length < r.file.input.length + 1 := by
      have := header_block_length (h :: hs)
      rw [hin, List.length_append]
      omega
    unfold parse_request_headers
    rw [parse_request_headers_loop_block BUFSIZ hB (h :: hs) _ r rest hfuel hvalid hin]
    simp [parse_request_headers_end, hnull]

set_option maxRecDepth 100000 in
/-- C4 on the block `Host: localhost:8888`, `Accept: text/html`, blank line. -/
theorem parse_request_headers_reverse_order_witness :
    parse_request_headers 8192
        (example_request "Host: localhost:8888\r\nAccept: text/html\r\n\r\nbody") =
      .ret (0, { example_request "Host: localhost:8888\r\nAccept: text/html\r\n\r\nbody" with
        file := { input := "body".toList, output := [], room := none },
        headers := [{ name := "Accept".toList, value := "text/html".toList },
                    { name := "Host".toList, value := "localhost:8888".toList }] }) :=
  parse_request_headers_reverse_order 8192
    (example_request "Host: localhost:8888\r\nAccept: text/html\r\n\r\nbody")
    [{ name := "Host".toList, value := "localhost:8888".toList },
     { name := "Accept".toList, value := "text/html".toList }] "body".toList
    (by decide) (by decide) rfl (by decide)

/-! ## The whole request -/

/-- When `parse_request_method` returns 0 it has stored method, URI and query,
and has not touched the header list. -/
theorem parse_request_method_zero (BUFSIZ : Nat) (WHITESPACE : List Char) (r r1 : request)
    (h : parse_request_method BUFSIZ WHITESPACE r = .ret (0, r1)) :
    r1.method.isSome = true ∧ r1.uri.isSome = true ∧ r1.query.isSome = true ∧
      r1.headers = r.headers := by
  simp only [parse_request_method] at h
  split at h
  · simp at h
  · split at h
    · cases h
    · split at h
      · cases h
      · split at h
        · simp at h
          subst h
          simp
        · simp at h
          subst h
          simp

/-- The tail of `parse_request_headers` returns the request unchanged, and 0
only for a header list that is not NULL. -/
theorem parse_request_headers_end_ret (r r1 : request) (s : Int)
    (h : parse_request_headers_end r = .ret (s, r1)) :
    r1 = r ∧ (s = 0 → r.headers ≠ []) := by
  unfold parse_request_headers_end at h
  split at h
  · simp at h
    refine ⟨h.2.symm, fun hs => ?_⟩
    rw [← h.1] at hs
    cases hs
  · rename_i hne
    simp at h
    exact ⟨h.2.symm, fun _ => hne⟩

/-- The header loop leaves method, URI and query alone, and returns 0 only
with a header list that is not NULL. -/
theorem parse_request_headers_loop_ret (BUFSIZ : Nat) :
    ∀ (fuel : Nat) (r r1 : request) (s : Int),
    parse_request_headers_loop BUFSIZ fuel r = .ret (s, r1) →
    r1.method = r.method ∧ r1.uri = r.uri ∧ r1.query = r.query ∧ (s = 0 → r1.headers ≠ []) := by
  intro fuel
  induction fuel with
  | zero =>
    intro r r1 s h
    simp [parse_request_headers_loop] at h
  | succ k ih =>
    intro r r1 s h
    simp only [parse_request_headers_loop] at h
    split at h
    · obtain ⟨h1, h2⟩ := parse_request_headers_end_ret _ _ _ h
      subst h1
      exact ⟨rfl, rfl, rfl, h2⟩
    · split at h
      · split at h
        · cases h
        · split at h
          · simp at h
            obtain ⟨h1, h2⟩ := h
            subst h2
            refine ⟨rfl, rfl, rfl, fun hs => ?_⟩
            rw [← h1] at hs
            cases hs
          · have := ih _ _ _ h
            exact this
      · obtain ⟨h1, h2⟩ := parse_request_headers_end_ret _ _ _ h
        subst h1
        exact ⟨rfl, rfl, rfl, h2⟩

/-- C7. Whenever `parse_request` returns 0 the method, URI and query are
present and the header list has at least one entry; and a well-formed request
line followed at once by the blank line, on a fresh request, makes
`parse_request` return -1. -/
theorem parse_request_fully_parsed (BUFSIZ : Nat) (WHITESPACE : List Char) :
    (∀ r r1, parse_request BUFSIZ WHITESPACE r = .ret (0, r1) →
      r1.method.isSome = true ∧ r1.uri.isSome = true ∧ r1.query.isSome = true ∧
        1 ≤ r1.headers.length) ∧
    (∀ (r : request) (method token version rest : List Char),
      ' ' ∈ WHITESPACE → (∀ c ∈ WHITESPACE, isspace c = true) →
      method ≠ [] → (∀ c ∈ method, isspace c = false ∧ c ≠ NUL) →
      (∃ c, token.head? = some c ∧ c ≠ '?') → (∀ c ∈ token, isspace c = false ∧ c ≠ NUL) →
      '\n' ∉ version →
      r.headers = [] →
      r.file.input = method ++ [' '] ++ token ++ [' '] ++ "HTTP/".toList ++ version ++
        ['\r', '\n'] ++ ('\r' :: '\n' :: rest) →
      (method ++ [' '] ++ token ++ [' '] ++ "HTTP/".toList ++ version ++
        ['\r', '\n']).length < BUFSIZ →
      ∃ r1, parse_request BUFSIZ WHITESPACE r = .ret (-1, r1)) := by
  constructor
  · intro r r1 h
    unfold parse_request at h
    split at h
    · rename_i ms rm hm
      split at h
      · rename_i hs rh hh
        split at h
        · rename_i hc
          simp at h
          subst h
          rw [hc.1] at hm
          obtain ⟨a1, a2, a3, _⟩ := parse_request_method_zero _ _ _ _ hm
          obtain ⟨b1, b2, b3, b4⟩ := parse_request_headers_loop_ret _ _ _ _ _ hh
          refine ⟨by rw [b1]; exact a1, by rw [b2]; exact a2, by rw [b3]; exact a3, ?_⟩
          exact Nat.succ_le_of_lt (List.length_pos.mpr (b4 hc.2))
        · simp at h
      · cases h
      · cases h
    · cases h
    · cases h
  · intro r method token version rest hsp hws hm0 hm ht0 ht hv hnull hin hfit
    obtain ⟨u, q, hres, _, _⟩ := parse_request_method_line BUFSIZ WHITESPACE r method token
      version ('\r' :: '\n' :: rest) hsp hws hm0 hm ht0 ht hv hin hfit
    have hB : 2 < BUFSIZ := by
      simp at hfit
      omega
    have hh : parse_request_headers BUFSIZ
        { r with file := { r.file with input := '\r' :: '\n' :: rest }, method := some method,
                 uri := some u, query := some q } =
        .ret (-1, { r with file := { r.file with input := rest }, method := some method,
                           uri := some u, query := some q }) := by
      have hloop := parse_request_headers_loop_block BUFSIZ hB []
        (('\r' :: '\n' :: rest).length + 1)
        { r with file := { r.file with input := '\r' :: '\n' :: rest }, method := some method,
                 uri := some u, query := some q }
        rest (by simp) (by simp) (by simp)
      refine Eq.trans hloop ?_
      simp [parse_request_headers_end, hnull]
    refine ⟨{ r with file := { r.file with input := rest }, method := some method,
                     uri := some u, query := some q }, ?_⟩
    unfold parse_request
    rw [hres]
    simp only []
    rw [hh]
    simp

set_option maxRecDepth 100000 in
/-- C7 on `GET / HTTP/1.0` with the header `Host: localhost` (returns 0, all
fields present) and on `GET / HTTP/1.0` followed by the blank line (returns
-1). -/
theorem parse_request_fully_parsed_witness :
    parse_request 8192 " \t\n".toList
        (example_request "GET / HTTP/1.0\r\nHost: localhost\r\n\r\n") =
      .ret (0, { example_request "" with
        method := some "GET".toList, uri := some "/".toList, query := some [],
        headers := [{ name := "Host".toList, value := "localhost".toList }] }) ∧
    (({ example_request "" with
        method := some "GET".toList, uri := some "/".toList, query := some [],
        headers := [{ name := "Host".toList, value := "localhost".toList }] } :
        request).method.isSome = true ∧
      ({ example_request "" with
        method := some "GET".toList, uri := some "/".toList, query := some [],
        headers := [{ name := "Host".toList, value := "localhost".toList }] } :
        request).uri.isSome = true ∧
      ({ example_request "" with
        method := some "GET".toList, uri := some "/".toList, query := some [],
        headers := [{ name := "Host".toList, value := "localhost".toList }] } :
        request).query.isSome = true ∧
      1 ≤ ({ example_request "" with
        method := some "GET".toList, uri := some "/".toList, query := some [],
        headers := [{ name := "Host".toList, value := "localhost".toList }] } :
        request).headers.length) ∧
    ∃ r1, parse_request 8192 " \t\n".toList (example_request "GET / HTTP/1.0\r\n\r\n") =
      .ret (-1, r1) :=
  ⟨by decide,
   (parse_request_fully_parsed 8192 " \t\n".toList).1
     (example_request "GET / HTTP/1.0\r\nHost: localhost\r\n\r\n") _ (by decide),
   (parse_request_fully_parsed 8192 " \t\n".toList).2 (example_request "GET / HTTP/1.0\r\n\r\n")
     "GET".toList "/".toList "1.0".toList [] (by decide) (by decide) (by decide) (by decide)
     ⟨'/', rfl, by decide⟩ (by decide) (by decide) (by decide) (by decide) (by decide)⟩

/-! ## Termination of the header loop -/

/-- What `fgets` takes and what it leaves make up the input. -/
theorem fgets_take_append (k : Nat) (s : List Char) :
    (fgets_take k s).1 ++ (fgets_take k s).2 = s := by
  induction s generalizing k with
  | nil => cases k <;> simp [fgets_take]
  | cons x xs ih =>
    cases k with
    | zero => simp [fgets_take]
    | succ k =>
      by_cases hx : x = '\n'
      · simp [fgets_take, hx]
      · simp [fgets_take, hx, ih k]

/-- A line of more than two bytes read by `fgets` shortens the input. -/
theorem fgets_consumes (n : Nat) (f f1 : FILE) (buffer : List Char)
    (h : fgets n f = (some buffer, f1)) (hlen : strlen buffer 0 > 2) :
    f1.input.length < f.input.length := by
  unfold fgets at h
  split at h
  · simp at h
  · split at h
    · simp at h
      rw [← h.1] at hlen
      have h0 : ¬ strlen [NUL] 0 > 2 := by decide
      exact absurd hlen h0
    · simp only [] at h
      split at h
      · simp at h
      · rename_i hne
        simp at h
        rw [← h.2]
        have happ := fgets_take_append (n - 1) f.input
        have hpos : 0 < (fgets_take (n - 1) f.input).1.length := List.length_pos.mpr hne
        have := congrArg List.length happ
        simp only [List.length_append] at this
        simp only []
        omega

/-- The bound of the header loop is not hit when it exceeds the input length:
`parse_request_headers` always comes to an end. -/
theorem parse_request_headers_loop_terminates (BUFSIZ : Nat) :
    ∀ (fuel : Nat) (r : request), r.file.input.length < fuel →
    parse_request_headers_loop BUFSIZ fuel r ≠ .fuel := by
  intro fuel
  induction fuel with
  | zero =>
    intro r h
    omega
  | succ k ih =>
    intro r hk
    simp only [parse_request_headers_loop]
    split
    · unfold parse_request_headers_end
      split <;> simp
    · rename_i buffer f hf
      split
      · rename_i hlen
        have hshort := fgets_consumes BUFSIZ r.file f buffer hf hlen
        split
        · simp
        · split
          · simp
          · apply ih
            simp only []
            omega
      · unfold parse_request_headers_end
        split <;> simp

/-- The header phase never runs out of its loop bound. -/
theorem parse_request_headers_terminates (BUFSIZ : Nat) (r : request) :
    parse_request_headers BUFSIZ r ≠ .fuel :=
  parse_request_headers_loop_terminates BUFSIZ _ r (Nat.lt_succ_self _)

/-! ## Mime types -/

set_option maxRecDepth 100000 in
/-- C11, evaluated. For the path `index.html` and the table whose
first line is `text/html html htm`, the extension handed to the comparison is
`.html`, dot included, which equals no token of the table: the result is the
default `text/plain`, not `text/html`. -/
theorem determine_mimetype_keeps_dot :
    example_world.content example_config.MimeTypesPath =
      some "text/html html htm\ntext/plain txt\n".toList ∧
    strrchr "index.html".toList '.' = some 5 ∧
    "index.html".toList.drop 5 = ".html".toList ∧
    determine_mimetype example_config example_world "index.html".toList =
      .ret "text/plain".toList ∧
    example_config.DefaultMimeType = "text/plain".toList := by
  refine ⟨?_, ?_, ?_, ?_, ?_⟩ <;> decide

/-! ## CGI header export -/

/-- A byte other than the terminator has a nonzero code. -/
theorem toNat_ne_zero (c : Char) (hc : c ≠ NUL) : c.toNat ≠ 0 := by
  intro h
  apply hc
  apply Char.ext
  apply UInt32.ext
  simpa [NUL, Char.toNat] using h

/-- On strings, `strcmp` is 0 exactly for equal strings. -/
theorem strcmp_eq_zero (a b : List Char) (ha : NUL ∉ a) (hb : NUL ∉ b) :
    strcmp a b = 0 ↔ a = b := by
  induction a generalizing b with
  | nil =>
    cases b with
    | nil => simp [strcmp]
    | cons y ys =>
      have := toNat_ne_zero y (fun h => hb (by simp [h]))
      simp [strcmp]
      omega
  | cons x xs ih =>
    cases b with
    | nil =>
      have := toNat_ne_zero x (fun h => ha (by simp [h]))
      simp [strcmp]
      omega
    | cons y ys =>
      by_cases hxy : x = y
      · subst hxy
        simp [strcmp, ih ys (fun h => ha (by simp [h])) (fun h => hb (by simp [h]))]
      · have hne : (x.toNat : Int) - (y.toNat : Int) ≠ 0 := by
          intro h
          apply hxy
          apply Char.ext
          apply UInt32.ext
          have : x.toNat = y.toNat := by omega
          simpa [Char.toNat] using this
        simp [strcmp, hxy, hne]

/-- On strings, `streq` decides equality. -/
theorem streq_eq_decide (a b : List Char) (ha : NUL ∉ a) (hb : NUL ∉ b) :
    streq a b = decide (a = b) := by
  unfold streq
  by_cases h : a = b
  · simp [h, (strcmp_eq_zero b b hb hb).mpr rfl]
  · have : strcmp a b ≠ 0 := fun h0 => h ((strcmp_eq_zero a b ha hb).mp h0)
    simp [h, this]

/-- A variable reads as the value `setenv` gave it. -/
theorem getenv_setenv_same (env : environ) (name value : List Char) :
    getenv (setenv env name value) name = some value := by
  induction env with
  | nil => simp [setenv, getenv]
  | cons p rest ih =>
    obtain ⟨k, v⟩ := p
    by_cases hk : k = name
    · simp [setenv, getenv, hk]
    · simp [setenv, getenv, hk, ih]

/-- `setenv` leaves every other variable as it was. -/
theorem getenv_setenv_other (env : environ) (name value other : List Char)
    (h : other ≠ name) :
    getenv (setenv env name value) other = getenv env other := by
  induction env with
  | nil => simp [setenv, getenv, Ne.symm h]
  | cons p rest ih =>
    obtain ⟨k, v⟩ := p
    by_cases hk : k = name
    · subst hk
      simp [setenv, getenv, Ne.symm h]
    · by_cases hk2 : k = other
      · subst hk2
        simp [setenv, getenv, hk]
      · simp [setenv, getenv, hk, hk2, ih]

/-- One turn of the export loop, read through `getenv`: the variable paired
with the header name gets the header value, every other variable stays. -/
theorem handle_cgi_request_headers_turn (h : header) (env : environ) (hn : NUL ∉ h.name)
    (v : List Char) :
    getenv
      (if streq h.name "Accept".toList then setenv env "HTTP_ACCEPT".toList h.value
       else if streq h.name "Host".toList then setenv env "HTTP_HOST".toList h.value
       else if streq h.name "Accept-Language".toList then
         setenv env "HTTP_ACCEPT_LANGUAGE".toList h.value
       else if streq h.name "Accept-Encoding".toList then
         setenv env "HTTP_ACCEPT_ENCODING".toList h.value
       else if streq h.name "Connection".toList then
         setenv env "HTTP_CONNECTION".toList h.value
       else if streq h.name "User-Agent".toList then
         setenv env "HTTP_USER_AGENT".toList h.value
       else env) v =
    if (h.name, v) ∈ [("Accept".toList, "HTTP_ACCEPT".toList),
        ("Host".toList, "HTTP_HOST".toList),
        ("Accept-Language".toList, "HTTP_ACCEPT_LANGUAGE".toList),
        ("Accept-Encoding".toList, "HTTP_ACCEPT_ENCODING".toList),
        ("Connection".toList, "HTTP_CONNECTION".toList),
        ("User-Agent".toList, "HTTP_USER_AGENT".toList)]
    then some h.value else getenv env v := by
  rw [streq_eq_decide _ _ hn (by decide), streq_eq_decide _ _ hn (by decide),
    streq_eq_decide _ _ hn (by decide), streq_eq_decide _ _ hn (by decide),
    streq_eq_decide _ _ hn (by decide), streq_eq_decide _ _ hn (by decide)]
  simp only [decide_eq_true_eq, List.mem_cons, Prod.mk.injEq, List.mem_nil_iff, or_false]
  by_cases h1 : h.name = "Accept".toList
  · rw [if_pos h1]
    by_cases hv : v = "HTTP_ACCEPT".toList
    · rw [hv, getenv_setenv_same, if_pos (Or.inl ⟨h1, rfl⟩)]
    · rw [getenv_setenv_other _ _ _ _ hv, h1]
      simp at hv
      simp [hv]
  · rw [if_neg h1]
    by_cases h2 : h.name = "Host".toList
    · rw [if_pos h2]
      by_cases hv : v = "HTTP_HOST".toList
      · rw [hv, getenv_setenv_same, if_pos (Or.inr (Or.inl ⟨h2, rfl⟩))]
      · rw [getenv_setenv_other _ _ _ _ hv, h2]
        simp at hv
        simp [hv]
    · rw [if_neg h2]
      by_cases h3 : h.name = "Accept-Language".toList
      · rw [if_pos h3]
        by_cases hv : v = "HTTP_ACCEPT_LANGUAGE".toList
        · rw [hv, getenv_setenv_same, if_pos (Or.inr (Or.inr (Or.inl ⟨h3, rfl⟩)))]
        · rw [getenv_setenv_other _ _ _ _ hv, h3]
          simp at hv
          simp [hv]
      · rw [if_neg h3]
        by_cases h4 : h.name = "Accept-Encoding".toList
        · rw [if_pos h4]
          by_cases hv : v = "HTTP_ACCEPT_ENCODING".toList
          · rw [hv, getenv_setenv_same, if_pos (Or.inr (Or.inr (Or.inr (Or.inl ⟨h4, rfl⟩))))]
          · rw [getenv_setenv_other _ _ _ _ hv, h4]
            simp at hv
            simp [hv]
        · rw [if_neg h4]
          by_cases h5 : h.name = "Connection".toList
          · rw [if_pos h5]
            by_cases hv : v = "HTTP_CONNECTION".toList
            · rw [hv, getenv_setenv_same, if_pos (Or.inr (Or.inr (Or.inr (Or.inr (Or.inl ⟨h5, rfl⟩)))))]
            · rw [getenv_setenv_other _ _ _ _ hv, h5]
              simp at hv
              simp [hv]
          · rw [if_neg h5]
            by_cases h6 : h.name = "User-Agent".toList
            · rw [if_pos h6]
              by_cases hv : v = "HTTP_USER_AGENT".toList
              · rw [hv, getenv_setenv_same, if_pos (Or.inr (Or.inr (Or.inr (Or.inr (Or.inr (⟨h6, rfl⟩))))))]
              · rw [getenv_setenv_other _ _ _ _ hv, h6]
                simp at hv
                simp [hv]
            · rw [if_neg h6]
              rw [if_neg]
              rintro (⟨a, _⟩ | ⟨a, _⟩ | ⟨a, _⟩ | ⟨a, _⟩ | ⟨a, _⟩ | ⟨a, _⟩)
              · exact h1 a
              · exact h2 a
              · exact h3 a
              · exact h4 a
              · exact h5 a
              · exact h6 a

/-- The export loop read through `getenv`: a variable gets the value of the
last header of the scan whose name is paired with it, and stays as it was when
there is none. -/
theorem handle_cgi_request_headers_getenv (v : List Char) (hs : List header) :
    ∀ env : environ, (∀ h ∈ hs, NUL ∉ h.name) →
    getenv (handle_cgi_request_headers hs env) v =
      match (hs.filter (fun h => decide ((h.name, v) ∈
        [("Accept".toList, "HTTP_ACCEPT".toList),
         ("Host".toList, "HTTP_HOST".toList),
         ("Accept-Language".toList, "HTTP_ACCEPT_LANGUAGE".toList),
         ("Accept-Encoding".toList, "HTTP_ACCEPT_ENCODING".toList),
         ("Connection".toList, "HTTP_CONNECTION".toList),
         ("User-Agent".toList, "HTTP_USER_AGENT".toList)]))).getLast? with
      | some h => some h.value
      | none => getenv env v := by
  induction hs with
  | nil =>
    intro env _
    simp [handle_cgi_request_headers]
  | cons h hs ih =>
    intro env hn
    have hturn := handle_cgi_request_headers_turn h env (hn h (by simp)) v
    simp only [handle_cgi_request_headers]
    rw [ih _ (fun x hx => hn x (by simp [hx])), hturn]
    by_cases hp : (h.name, v) ∈
        [("Accept".toList, "HTTP_ACCEPT".toList),
         ("Host".toList, "HTTP_HOST".toList),
         ("Accept-Language".toList, "HTTP_ACCEPT_LANGUAGE".toList),
         ("Accept-Encoding".toList, "HTTP_ACCEPT_ENCODING".toList),
         ("Connection".toList, "HTTP_CONNECTION".toList),
         ("User-Agent".toList, "HTTP_USER_AGENT".toList)]
    · rw [if_pos hp, List.filter_cons_of_pos (by simpa using hp), List.getLast?_cons]
      cases (List.filter _ hs).getLast? <;> rfl
    · rw [if_neg hp, List.filter_cons_of_neg (by simpa using hp)]

/-- C12. The header export of `handle_cgi_request` sets each of `HTTP_ACCEPT`,
`HTTP_HOST`, `HTTP_ACCEPT_LANGUAGE`, `HTTP_ACCEPT_ENCODING`, `HTTP_CONNECTION`
and `HTTP_USER_AGENT` to the value of the header named `Accept`, `Host`,
`Accept-Language`, `Accept-Encoding`, `Connection` and `User-Agent` met last in
the list scan, leaves the variable as it was when no header has that name, and
changes no other variable. -/
theorem handle_cgi_request_headers_exports (hs : List header) (env : environ)
    (hnames : ∀ h ∈ hs, NUL ∉ h.name) :
    (∀ name var, (name, var) ∈
        [("Accept".toList, "HTTP_ACCEPT".toList),
         ("Host".toList, "HTTP_HOST".toList),
         ("Accept-Language".toList, "HTTP_ACCEPT_LANGUAGE".toList),
         ("Accept-Encoding".toList, "HTTP_ACCEPT_ENCODING".toList),
         ("Connection".toList, "HTTP_CONNECTION".toList),
         ("User-Agent".toList, "HTTP_USER_AGENT".toList)] →
      getenv (handle_cgi_request_headers hs env) var =
        match (hs.filter (fun h => decide (h.name = name))).getLast? with
        | some h => some h.value
        | none => getenv env var) ∧
    (∀ var, var ∉ ["HTTP_ACCEPT".toList, "HTTP_HOST".toList, "HTTP_ACCEPT_LANGUAGE".toList,
        "HTTP_ACCEPT_ENCODING".toList, "HTTP_CONNECTION".toList, "HTTP_USER_AGENT".toList] →
      getenv (handle_cgi_request_headers hs env) var = getenv env var) := by
  constructor
  · intro name var hmem
    rw [handle_cgi_request_headers_getenv var hs env hnames]
    have hfun : ∀ h : header, decide ((h.name, var) ∈
        [("Accept".toList, "HTTP_ACCEPT".toList),
         ("Host".toList, "HTTP_HOST".toList),
         ("Accept-Language".toList, "HTTP_ACCEPT_LANGUAGE".toList),
         ("Accept-Encoding".toList, "HTTP_ACCEPT_ENCODING".toList),
         ("Connection".toList, "HTTP_CONNECTION".toList),
         ("User-Agent".toList, "HTTP_USER_AGENT".toList)]) = decide (h.name = name) := by
      intro h
      simp only [List.mem_cons, Prod.mk.injEq, List.mem_nil_iff, or_false] at hmem
      rcases hmem with ⟨rfl, rfl⟩ | ⟨rfl, rfl⟩ | ⟨rfl, rfl⟩ | ⟨rfl, rfl⟩ | ⟨rfl, rfl⟩ | ⟨rfl, rfl⟩ <;>
        simp
    simp only [hfun]
  · intro var hvar
    rw [handle_cgi_request_headers_getenv var hs env hnames]
    have hnone : ∀ h : header, decide ((h.name, var) ∈
        [("Accept".toList, "HTTP_ACCEPT".toList),
         ("Host".toList, "HTTP_HOST".toList),
         ("Accept-Language".toList, "HTTP_ACCEPT_LANGUAGE".toList),
         ("Accept-Encoding".toList, "HTTP_ACCEPT_ENCODING".toList),
         ("Connection".toList, "HTTP_CONNECTION".toList),
         ("User-Agent".toList, "HTTP_USER_AGENT".toList)]) = false := by
      intro h
      simp only [List.mem_cons, List.mem_nil_iff, or_false, not_or] at hvar
      simp only [List.mem_cons, Prod.mk.injEq, List.mem_nil_iff, or_false, decide_eq_false_iff_not,
        not_or, not_and]
      exact ⟨fun _ => hvar.1, fun _ => hvar.2.1, fun _ => hvar.2.2.1, fun _ => hvar.2.2.2.1,
        fun _ => hvar.2.2.2.2.1, fun _ => hvar.2.2.2.2.2⟩
    simp only [hnone, List.filter_false, List.getLast?_nil]

set_option maxRecDepth 100000 in
/-- C12 on the scan `Host: b`, `X-Token: z`, `Host: a`, `Accept: text/html`
over an environment holding `HTTP_CONNECTION` and `PATH`: `HTTP_HOST` gets the
value of the `Host` header met last, `HTTP_ACCEPT` is set, `HTTP_CONNECTION`
and `PATH` stay, and no variable appears for `X-Token`. -/
theorem handle_cgi_request_headers_exports_witness :
    (∀ h ∈ example_headers, NUL ∉ h.name) ∧
    getenv (handle_cgi_request_headers example_headers example_environ) "HTTP_HOST".toList =
      some "a".toList ∧
    getenv (handle_cgi_request_headers example_headers example_environ) "HTTP_ACCEPT".toList =
      some "text/html".toList ∧
    getenv (handle_cgi_request_headers example_headers example_environ)
      "HTTP_CONNECTION".toList = some "close".toList ∧
    getenv (handle_cgi_request_headers example_headers example_environ) "PATH".toList =
      some "/bin".toList ∧
    getenv (handle_cgi_request_headers example_headers example_environ) "HTTP_X_TOKEN".toList =
      none :=
  ⟨by decide,
   (handle_cgi_request_headers_exports example_headers example_environ (by decide)).1
     "Host".toList "HTTP_HOST".toList (by decide),
   (handle_cgi_request_headers_exports example_headers example_environ (by decide)).1
     "Accept".toList "HTTP_ACCEPT".toList (by decide),
   (handle_cgi_request_headers_exports example_headers example_environ (by decide)).1
     "Connection".toList "HTTP_CONNECTION".toList (by decide),
   (handle_cgi_request_headers_exports example_headers example_environ (by decide)).2
     "PATH".toList (by decide),
   (handle_cgi_request_headers_exports example_headers example_environ (by decide)).2
     "HTTP_X_TOKEN".toList (by decide)⟩

/-! ## One header line -/

/-- `strtok` on a token that ends at a delimiter or at the terminator: the
byte behind the token is a terminator afterwards. -/
theorem strtok_cut (pre tok post delim : List Char) (d : Char) (s : Option Nat) (save : Nat)
    (hs : s.getD save = pre.length) (hne : tok ≠ [])
    (htok : ∀ c ∈ tok, c ≠ NUL ∧ c ∉ delim) (hd : d = NUL ∨ d ∈ delim) :
    ∃ sv, strtok (pre ++ (tok ++ d :: post)) s delim save =
      (pre ++ (tok ++ NUL :: post), some pre.length, sv) := by
  by_cases h0 : d = NUL
  · subst h0
    exact ⟨_, strtok_last pre tok post delim s save hs hne htok⟩
  · rcases hd with h | h
    · exact absurd h h0
    · exact ⟨_, strtok_token pre tok post delim d s save hs hne htok h h0⟩

/-- One turn of the header loop on a buffer `name : ws value d ...` where the
name is not empty, `ws` is whitespace, the value starts with a byte that is
not whitespace and `d` is CR, LF or the terminator: the header `name`, `value`
is put in front of the list. -/
theorem parse_request_headers_loop_value (BUFSIZ fuel : Nat) (r : request) (f1 : FILE)
    (name ws v post : List Char) (d : Char)
    (hread : fgets BUFSIZ r.file = (some (name ++ ':' :: (ws ++ (v ++ d :: post))), f1))
    (hlen : strlen (name ++ ':' :: (ws ++ (v ++ d :: post))) 0 > 2)
    (hn0 : name ≠ []) (hn : ∀ c ∈ name, c ≠ ':' ∧ c ≠ NUL)
    (hws : ∀ c ∈ ws, isspace c = true ∧ c ≠ NUL)
    (hv0 : ∃ x xs, v = x :: xs ∧ isspace x = false)
    (hv : ∀ c ∈ v, c ≠ '\r' ∧ c ≠ '\n' ∧ c ≠ NUL)
    (hd : d = NUL ∨ d = '\r' ∨ d = '\n') :
    parse_request_headers_loop BUFSIZ (fuel + 1) r =
      parse_request_headers_loop BUFSIZ fuel
        { r with file := f1, headers := { name := name, value := v } :: r.headers } := by
  obtain ⟨x, xs, hvx, hx⟩ := hv0
  have hchr : strchr (name ++ ':' :: (ws ++ (v ++ d :: post))) 0 ':' = some name.length := by
    simp [strchr, strchr_scan_found ':' name _ 0 hn]
  have hskip : skip_whitespace (name ++ ':' :: (ws ++ (v ++ d :: post))) (name.length + 1) =
      name.length + 1 + ws.length := by
    have := skip_whitespace_run (name ++ [':']) ws x (xs ++ d :: post) hws (Or.inl hx)
    simpa [hvx] using this
  obtain ⟨sv, hk1⟩ := strtok_cut (name ++ ':' :: ws) v post ['\r', '\n'] d
    (some (name.length + 1 + ws.length)) 0 (by simp; omega) (by simp [hvx])
    (fun c hc => ⟨(hv c hc).2.2, by simpa using ⟨(hv c hc).1, (hv c hc).2.1⟩⟩)
    (by simpa using hd)
  have hk1b : strtok (name ++ ':' :: (ws ++ (v ++ d :: post)))
      (some (name.length + 1 + ws.length)) ['\r', '\n'] 0 =
      (name ++ ':' :: (ws ++ (v ++ NUL :: post)), some (name.length + 1 + ws.length), sv) := by
    have e1 : (name ++ ':' :: ws) ++ (v ++ d :: post) =
        name ++ ':' :: (ws ++ (v ++ d :: post)) := by simp
    have e2 : (name ++ ':' :: ws) ++ (v ++ NUL :: post) =
        name ++ ':' :: (ws ++ (v ++ NUL :: post)) := by simp
    have l : (name ++ ':' :: ws).length = name.length + 1 + ws.length := by
      simp only [List.length_append, List.length_cons]
      omega
    rw [e1, e2, l] at hk1
    exact hk1
  have hk2 : strtok (name ++ ':' :: (ws ++ (v ++ NUL :: post))) (some 0) [':'] sv =
      (name ++ NUL :: (ws ++ (v ++ NUL :: post)), some 0, name.length + 1) := by
    have := strtok_token [] name (ws ++ (v ++ NUL :: post)) [':'] ':' (some 0) sv rfl hn0
      (fun c hc => ⟨(hn c hc).2, by simpa using (hn c hc).1⟩) (by simp) (by decide)
    simpa using this
  have hc1 : cstr (name ++ NUL :: (ws ++ (v ++ NUL :: post))) 0 = name := by
    have := cstr_append [] name (ws ++ (v ++ NUL :: post)) (fun h => (hn _ h).2 rfl)
    simpa using this
  have hc2 : cstr (name ++ NUL :: (ws ++ (v ++ NUL :: post))) (name.length + 1 + ws.length) =
      v := by
    have e : name ++ NUL :: (ws ++ (v ++ NUL :: post)) =
        (name ++ NUL :: ws) ++ (v ++ NUL :: post) := by simp
    have l : name.length + 1 + ws.length = (name ++ NUL :: ws).length := by
      simp only [List.length_append, List.length_cons]
      omega
    rw [e, l]
    exact cstr_append _ v post (fun h => (hv _ h).2.2 rfl)
  simp only [parse_request_headers_loop, hread, hlen, if_true, hchr, hskip, hk1b, hk2, hc1, hc2]

/-- One turn of the header loop on a buffer `name : ws` where only whitespace
follows the colon: the header `name` with the empty value is put in front of
the list. -/
theorem parse_request_headers_loop_blank (BUFSIZ fuel : Nat) (r : request) (f1 : FILE)
    (name ws post : List Char)
    (hread : fgets BUFSIZ r.file = (some (name ++ ':' :: (ws ++ NUL :: post)), f1))
    (hlen : strlen (name ++ ':' :: (ws ++ NUL :: post)) 0 > 2)
    (hn0 : name ≠ []) (hn : ∀ c ∈ name, c ≠ ':' ∧ c ≠ NUL)
    (hws : ∀ c ∈ ws, isspace c = true ∧ c ≠ NUL) :
    parse_request_headers_loop BUFSIZ (fuel + 1) r =
      parse_request_headers_loop BUFSIZ fuel
        { r with file := f1, headers := { name := name, value := [] } :: r.headers } := by
  have hchr : strchr (name ++ ':' :: (ws ++ NUL :: post)) 0 ':' = some name.length := by
    simp [strchr, strchr_scan_found ':' name _ 0 hn]
  have hskip : skip_whitespace (name ++ ':' :: (ws ++ NUL :: post)) (name.length + 1) =
      name.length + 1 + ws.length := by
    have := skip_whitespace_run (name ++ [':']) ws NUL post hws (Or.inr rfl)
    simpa using this
  have e1 : (name ++ ':' :: ws) ++ NUL :: post = name ++ ':' :: (ws ++ NUL :: post) := by simp
  have l : (name ++ ':' :: ws).length = name.length + 1 + ws.length := by
    simp only [List.length_append, List.length_cons]
    omega
  have hk1 : strtok (name ++ ':' :: (ws ++ NUL :: post))
      (some (name.length + 1 + ws.length)) ['\r', '\n'] 0 =
      (name ++ ':' :: (ws ++ NUL :: post), none, name.length + 1 + ws.length) := by
    have := strtok_empty (name ++ ':' :: ws) post ['\r', '\n']
      (some (name.length + 1 + ws.length)) 0 (by simp; omega)
    rw [e1, l] at this
    exact this
  have hk2 : strtok (name ++ ':' :: (ws ++ NUL :: post)) (some 0) [':']
      (name.length + 1 + ws.length) =
      (name ++ NUL :: (ws ++ NUL :: post), some 0, name.length + 1) := by
    have := strtok_token [] name (ws ++ NUL :: post) [':'] ':' (some 0)
      (name.length + 1 + ws.length) rfl hn0
      (fun c hc => ⟨(hn c hc).2, by simpa using (hn c hc).1⟩) (by simp) (by decide)
    simpa using this
  have hc1 : cstr (name ++ NUL :: (ws ++ NUL :: post)) 0 = name := by
    have := cstr_append [] name (ws ++ NUL :: post) (fun h => (hn _ h).2 rfl)
    simpa using this
  have hc2 : cstr (name ++ NUL :: (ws ++ NUL :: post)) (name.length + 1 + ws.length) = [] := by
    have e : name ++ NUL :: (ws ++ NUL :: post) = (name ++ NUL :: ws) ++ ([] ++ NUL :: post) := by
      simp
    have l2 : name.length + 1 + ws.length = (name ++ NUL :: ws).length := by
      simp only [List.length_append, List.length_cons]
      omega
    rw [e, l2]
    exact cstr_append _ [] post (by simp)
  simp only [parse_request_headers_loop, hread, hlen, if_true, hchr, hskip, hk1, hk2, hc1, hc2]

/-- The buffer `fgets` returns ends in a terminator. -/
theorem fgets_terminated (n : Nat) (f f1 : FILE) (buffer : List Char)
    (h : fgets n f = (some buffer, f1)) : NUL ∈ buffer := by
  unfold fgets at h
  split at h
  · simp at h
  · split at h
    · simp at h
      simp [← h.1]
    · simp only [] at h
      split at h
      · simp at h
      · simp at h
        simp [← h.1]

/-- A buffer holding a terminator is its string, the terminator, and what is
behind it. -/
theorem cstr_split (buffer : List Char) (h : NUL ∈ buffer) :
    ∃ junk, buffer = cstr buffer 0 ++ NUL :: junk := by
  induction buffer with
  | nil => cases h
  | cons x xs ih =>
    by_cases hx : x = NUL
    · exact ⟨xs, by simp [cstr, hx]⟩
    · have hmem : NUL ∈ xs := by
        rcases List.mem_cons.mp h with h | h
        · exact absurd h.symm hx
        · exact h
      obtain ⟨junk, hj⟩ := ih hmem
      refine ⟨junk, ?_⟩
      have : cstr (x :: xs) 0 = x :: cstr xs 0 := by simp [cstr, hx]
      rw [this, List.cons_append, ← hj]

/-- The string of a buffer holds no terminator. -/
theorem cstr_no_nul (buffer : List Char) (p : Nat) : NUL ∉ cstr buffer p := by
  intro h
  have := List.mem_takeWhile_imp h
  simp at this

/-- A byte that ends the value is CR or LF. -/
theorem crlf_of_value_end (c : Char) (h : (c != '\r' && c != '\n') = false) :
    c = '\r' ∨ c = '\n' := by
  by_cases h1 : c = '\r'
  · exact Or.inl h1
  · by_cases h2 : c = '\n'
    · exact Or.inr h2
    · simp [h1, h2] at h

/-- C13, as amended. For every header line of more than two bytes whose first
`:` follows a name that is not empty, the turn of the loop of
`parse_request_headers` that reads the line stores a header with that name and,
as value, the text behind the first `:` without its leading whitespace, up to
its first CR or LF; later `:` stay in the value. -/
theorem parse_request_headers_loop_stored (BUFSIZ fuel : Nat) (r : request) (f1 : FILE)
    (buffer name after : List Char)
    (hread : fgets BUFSIZ r.file = (some buffer, f1))
    (hlen : strlen buffer 0 > 2)
    (hsplit : cstr buffer 0 = name ++ ':' :: after)
    (hfirst : ':' ∉ name) (hn0 : name ≠ []) :
    parse_request_headers_loop BUFSIZ (fuel + 1) r =
      parse_request_headers_loop BUFSIZ fuel
        { r with file := f1,
                 headers := { name := name,
                              value := (after.dropWhile isspace).takeWhile
                                (fun c => c != '\r' && c != '\n') } :: r.headers } := by
  obtain ⟨junk, hb⟩ := cstr_split buffer (fgets_terminated _ _ _ _ hread)
  have hnul : NUL ∉ name ++ ':' :: after := hsplit ▸ cstr_no_nul buffer 0
  have hn : ∀ c ∈ name, c ≠ ':' ∧ c ≠ NUL := fun c hc =>
    ⟨fun h => hfirst (h ▸ hc), fun h => hnul (by simp [← h, hc])⟩
  have hafter : ∀ c ∈ after, c ≠ NUL := fun c hc h => hnul (by simp [← h, hc])
  have hws : ∀ c ∈ after.takeWhile isspace, isspace c = true ∧ c ≠ NUL := fun c hc =>
    ⟨List.mem_takeWhile_imp hc, hafter c ((List.takeWhile_sublist _).subset hc)⟩
  have hdecomp : after = after.takeWhile isspace ++ after.dropWhile isspace :=
    (List.takeWhile_append_dropWhile isspace after).symm
  rw [hsplit] at hb
  cases hr : after.dropWhile isspace with
  | nil =>
    rw [hr, List.append_nil] at hdecomp
    have hshape : buffer = name ++ ':' :: (after.takeWhile isspace ++ NUL :: junk) := by
      rw [hb]
      conv_lhs => rw [hdecomp]
      simp
    rw [hshape] at hread hlen
    simpa using parse_request_headers_loop_blank BUFSIZ fuel r f1 name _ junk hread hlen hn0 hn hws
  | cons x xs =>
    have hx : isspace x = false := by
      have := List.head?_dropWhile_not isspace after
      rw [hr] at this
      simpa using this
    have hrest : ∀ c ∈ x :: xs, c ≠ NUL := fun c hc =>
      hafter c ((List.dropWhile_sublist isspace).subset (hr ▸ hc))
    have hpx : (x != '\r' && x != '\n') = true := by
      by_cases h : (x != '\r' && x != '\n') = true
      · exact h
      · exfalso
        rcases crlf_of_value_end x (by simpa using h) with h1 | h1
        · rw [h1] at hx
          exact absurd hx (by decide)
        · rw [h1] at hx
          exact absurd hx (by decide)
    have hv0 : ∃ y ys, (x :: xs).takeWhile (fun c => c != '\r' && c != '\n') = y :: ys ∧
        isspace y = false :=
      ⟨x, xs.takeWhile (fun c => c != '\r' && c != '\n'), List.takeWhile_cons_of_pos hpx, hx⟩
    have hv : ∀ c ∈ (x :: xs).takeWhile (fun c => c != '\r' && c != '\n'),
        c ≠ '\r' ∧ c ≠ '\n' ∧ c ≠ NUL := by
      intro c hc
      have h1 := List.mem_takeWhile_imp hc
      simp at h1
      exact ⟨h1.1, h1.2, hrest c ((List.takeWhile_sublist _).subset hc)⟩
    have hdecomp2 : x :: xs = (x :: xs).takeWhile (fun c => c != '\r' && c != '\n') ++
        (x :: xs).dropWhile (fun c => c != '\r' && c != '\n') :=
      (List.takeWhile_append_dropWhile _ _).symm
    cases ht : (x :: xs).dropWhile (fun c => c != '\r' && c != '\n') with
    | nil =>
      rw [ht, List.append_nil] at hdecomp2
      have hshape : buffer = name ++ ':' :: (after.takeWhile isspace ++
          ((x :: xs).takeWhile (fun c => c != '\r' && c != '\n') ++ NUL :: junk)) := by
        rw [hb]
        conv_lhs => rw [hdecomp, hr, hdecomp2]
        simp
      rw [hshape] at hread hlen
      exact parse_request_headers_loop_value BUFSIZ fuel r f1 name _ _ junk NUL hread hlen hn0 hn
        hws hv0 hv (Or.inl rfl)
    | cons d tl =>
      have hd : d = '\r' ∨ d = '\n' := by
        have := List.head?_dropWhile_not (fun c => c != '\r' && c != '\n') (x :: xs)
        rw [ht] at this
        exact crlf_of_value_end d (by simpa using this)
      rw [ht] at hdecomp2
      have hshape : buffer = name ++ ':' :: (after.takeWhile isspace ++
          ((x :: xs).takeWhile (fun c => c != '\r' && c != '\n') ++ d :: (tl ++ NUL :: junk))) := by
        rw [hb]
        conv_lhs => rw [hdecomp, hr, hdecomp2]
        simp
      rw [hshape] at hread hlen
      exact parse_request_headers_loop_value BUFSIZ fuel r f1 name _ _ (tl ++ NUL :: junk) d hread
        hlen hn0 hn hws hv0 hv (Or.inr hd)

set_option maxRecDepth 100000 in
/-- C13, as amended, on the line `Host: localhost:8888`: the stored name is
`Host` and the stored value `localhost:8888`, its colon included. -/
theorem parse_request_headers_loop_stored_witness :
    fgets 8192 (example_request "Host: localhost:8888\r\n\r\n").file =
      (some ("Host: localhost:8888\r\n".toList ++ [NUL]),
        { input := "\r\n".toList, output := [], room := none }) ∧
    strlen ("Host: localhost:8888\r\n".toList ++ [NUL]) 0 > 2 ∧
    cstr ("Host: localhost:8888\r\n".toList ++ [NUL]) 0 =
      "Host".toList ++ ':' :: " localhost:8888\r\n".toList ∧
    parse_request_headers 8192 (example_request "Host: localhost:8888\r\n\r\n") =
      .ret (0, { example_request "" with
        headers := [{ name := "Host".toList, value := "localhost:8888".toList }] }) := by
  refine ⟨by decide, by decide, by decide, ?_⟩
  unfold parse_request_headers
  rw [parse_request_headers_loop_stored 8192 _
    (example_request "Host: localhost:8888\r\n\r\n")
    { input := "\r\n".toList, output := [], room := none }
    ("Host: localhost:8888\r\n".toList ++ [NUL]) "Host".toList " localhost:8888\r\n".toList
    (by decide) (by decide) (by decide) (by decide) (by decide)]
  decide

set_option maxRecDepth 100000 in
/-- C13, as stated, fails. The line `:::` has more than two bytes and a colon,
and no header is stored: the parse returns -1. The line `X: a` CR `b` CRLF
stores the value `a`, not `a` CR `b`. The line `:a:b` stores the name `a` and
the value `a`, not the empty name and the value `a:b`. -/
theorem parse_request_headers_stored_counterexample :
    (parse_request_headers 8192 (example_request ":::\r\n\r\n") =
        .ret (-1, { example_request "\r\n" with headers := [] }) ∧
      parse_request_headers 8192 (example_request ":::\r\n\r\n") ≠
        .ret (0, { example_request "" with
          headers := [{ name := [], value := "::".toList }] })) ∧
    (parse_request_headers 8192 (example_request "X: a\rb\r\n\r\n") =
        .ret (0, { example_request "" with
          headers := [{ name := "X".toList, value := "a".toList }] }) ∧
      parse_request_headers 8192 (example_request "X: a\rb\r\n\r\n") ≠
        .ret (0, { example_request "" with
          headers := [{ name := "X".toList, value := "a\rb".toList }] })) ∧
    (parse_request_headers 8192 (example_request ":a:b\r\n\r\n") =
        .ret (0, { example_request "" with
          headers := [{ name := "a".toList, value := "a".toList }] }) ∧
      parse_request_headers 8192 (example_request ":a:b\r\n\r\n") ≠
        .ret (0, { example_request "" with
          headers := [{ name := [], value := "a:b".toList }] })) := by
  refine ⟨⟨?_, ?_⟩, ⟨?_, ?_⟩, ⟨?_, ?_⟩⟩ <;> decide

end Spidey
